import Mathlib

/-!
Verification of the FSB5 header parser (`src/header/mod.rs`).

The development shallowly embeds the parser: bytes are `Nat`s (each < 256 in
real inputs), machine integers are `Nat`/`Int` with explicit wrap-around where
the Rust code can wrap, and fallible code returns `Option`/`Except`.  The byte
cursor `crate::read::Reader` and the error-kind enums live outside `src/`, so
the cursor is modelled from the spec's §6 contract and the error kinds from
their uses in `src/header/mod.rs` together with spec §7.
-/

/-- Modelled from the spec: the external byte cursor `crate::read::Reader`
(§6): a sequential reader over an in-memory byte source with absolute-position
tracking and forward seeking. -/
structure Rd where
  data : List Nat
  pos : Nat
deriving DecidableEq, Repr

/-- Modelled from the spec: reading a raw byte span of length `n`
(`Reader::take_len` / `Reader::take`); fails on a short read. -/
def Rd.takeLen (r : Rd) (n : Nat) : Option (List Nat × Rd) :=
  if r.pos + n ≤ r.data.length then
    some ((r.data.drop r.pos).take n, ⟨r.data, r.pos + n⟩)
  else none

/-- Little-endian byte-list to number conversion used by the fixed-width
integer readers. -/
def bytesToNatLE : List Nat → Nat
  | [] => 0
  | b :: rest => b + 256 * bytesToNatLE rest

/-- Modelled from the spec: `Reader::u8`. -/
def Rd.u8 (r : Rd) : Option (Nat × Rd) :=
  match r.takeLen 1 with
  | some (bs, r') => some (bs.headD 0, r')
  | none => none

/-- Modelled from the spec: `Reader::le_u32`, a little-endian 32-bit read. -/
def Rd.leU32 (r : Rd) : Option (Nat × Rd) :=
  match r.takeLen 4 with
  | some (bs, r') => some (bytesToNatLE bs, r')
  | none => none

/-- Modelled from the spec: `Reader::le_u64`, a little-endian 64-bit read. -/
def Rd.leU64 (r : Rd) : Option (Nat × Rd) :=
  match r.takeLen 8 with
  | some (bs, r') => some (bytesToNatLE bs, r')
  | none => none

/-- Two's-complement reinterpretation of a 16-bit unsigned value as `i16`. -/
def toSigned16 (v : Nat) : Int :=
  if v < 32768 then (v : Int) else (v : Int) - 65536

/-- Modelled from the spec: `Reader::be_i16`, a big-endian signed 16-bit
read. -/
def Rd.beI16 (r : Rd) : Option (Int × Rd) :=
  match r.takeLen 2 with
  | some (bs, r') => some (toSigned16 (bs.headD 0 * 256 + bs.getD 1 0), r')
  | none => none

/-- Modelled from the spec: `Reader::skip`, discarding `n` bytes. -/
def Rd.skip (r : Rd) (n : Nat) : Option Rd :=
  match r.takeLen n with
  | some (_, r') => some r'
  | none => none

/-- Modelled from the spec: `Reader::advance_to(absolute_offset)` reads and
discards forward to reach exactly the target offset; it fails when the target
is behind the cursor (never moves backward) or past the end of the input.  The
error carries the cursor state after the failed advance, since
`src/header/mod.rs` reports `reader.position()` at that moment in its
`WrongChunkSize`/`WrongHeaderSize` errors. -/
def Rd.advanceTo (r : Rd) (target : Nat) : Except Rd Rd :=
  if target < r.pos then .error r
  else if target ≤ r.data.length then .ok ⟨r.data, target⟩
  else .error ⟨r.data, r.data.length⟩

/-- Header-level error kinds (`HeaderErrorKind` in `src/header/error.rs`,
reconstructed from its uses in `src/header/mod.rs` and spec §7). -/
inductive HeaderErrorKind where
  | magic
  | version
  | unknownVersion (version : Nat)
  | streamCount
  | zeroStreams
  | streamHeadersSize
  | nameTableSize
  | totalStreamSize
  | zeroTotalStreamSize
  | codec
  | unknownCodec (flag : Nat)
  | metadata
  | wrongHeaderSize (expected actual : Nat)
  | zeroStreamSize (index : Nat)
deriving DecidableEq, Repr

/-- Stream-level error kinds (`StreamErrorKind`). -/
inductive StreamErrorKind where
  | streamInfo
  | unknownSampleRate (flag : Nat)
  | zeroSamples
deriving DecidableEq, Repr

/-- Chunk-level error kinds (`ChunkErrorKind`). -/
inductive ChunkErrorKind where
  | flag
  | channelCount
  | zeroChannels
  | sampleRate
  | zeroSampleRate
  | loopStart
  | loopEnd
  | zeroLengthLoop
  | dspCoefficients
  | vorbisLayerCount
  | tooManyVorbisLayers (layers : Nat)
  | zeroVorbisLayers
  | unknownType (flag : Nat)
  | wrongChunkSize (expected actual : Nat)
deriving DecidableEq, Repr

/-- Name-level error kinds (`NameErrorKind`). -/
inductive NameErrorKind where
  | nameOffset
  | name
  | cstr
  | utf8
deriving DecidableEq, Repr

/-- The unified parse error: each family scoped the way the Rust error structs
are (stream/chunk/name errors carry the relevant indices). -/
inductive Err where
  | header (k : HeaderErrorKind)
  | stream (index : Nat) (k : StreamErrorKind)
  | chunk (streamIndex chunkIndex : Nat) (k : ChunkErrorKind)
  | name (index : Nat) (k : NameErrorKind)
deriving DecidableEq, Repr

/-- `Version` (container version V0/V1). -/
inductive Version where
  | v0
  | v1
deriving DecidableEq, Repr

/-- `TryFrom<u32> for Version`. -/
def versionFromCode (value : Nat) : Except Err Version :=
  match value with
  | 0 => .ok .v0
  | 1 => .ok .v1
  | version => .error (.header (.unknownVersion version))

/-- `Codec`: the 17 known codec variants. -/
inductive Codec where
  | pcm8 | pcm16 | pcm24 | pcm32 | pcmFloat
  | gcAdpcm | imaAdpcm | vag | heVag | xma
  | mpeg | celt | atrac9 | xwma | vorbis
  | fAdpcm | opus
deriving DecidableEq, Repr

/-- `TryFrom<u32> for Codec`. -/
def codecFromCode (value : Nat) : Except Err Codec :=
  match value with
  | 1 => .ok .pcm8
  | 2 => .ok .pcm16
  | 3 => .ok .pcm24
  | 4 => .ok .pcm32
  | 5 => .ok .pcmFloat
  | 6 => .ok .gcAdpcm
  | 7 => .ok .imaAdpcm
  | 8 => .ok .vag
  | 9 => .ok .heVag
  | 10 => .ok .xma
  | 11 => .ok .mpeg
  | 12 => .ok .celt
  | 13 => .ok .atrac9
  | 14 => .ok .xwma
  | 15 => .ok .vorbis
  | 16 => .ok .fAdpcm
  | 17 => .ok .opus
  | flag => .error (.header (.unknownCodec flag))

/-- `Loop`: loop start (sample units) and length. `len` is nonzero whenever
a `Loop` is constructed by the parser. -/
structure Loop where
  start : Nat
  len : Nat
deriving DecidableEq, Repr

/-- `StreamHeader`: per-stream attributes before the stream size is known. -/
structure StreamHeader where
  hasChunks : Bool
  sampleRate : Nat
  channels : Nat
  dataOffset : Nat
  numSamples : Nat
  streamLoop : Option Loop
  dspCoeffs : Option (List Int)
deriving DecidableEq, Repr

/-- `StreamInfo`: the final per-stream record. -/
structure StreamInfo where
  sampleRate : Nat
  channels : Nat
  numSamples : Nat
  streamLoop : Option Loop
  dspCoeffs : Option (List Int)
  size : Nat
  name : Option (List Nat)
deriving DecidableEq, Repr

/-- `StreamHeader::with_stream_size`. -/
def StreamHeader.withStreamSize (s : StreamHeader) (size : Nat) : StreamInfo :=
  { sampleRate := s.sampleRate
    channels := s.channels
    numSamples := s.numSamples
    streamLoop := s.streamLoop
    dspCoeffs := s.dspCoeffs
    size := size
    name := none }

/-- `Header`: the parse result. -/
structure Header where
  numStreams : Nat
  codec : Codec
  streamInfo : List StreamInfo
deriving DecidableEq, Repr

/-- Wrapping 32-bit subtraction: Rust `u32` subtraction as compiled in release
mode (the code subtracts offsets without a checked operation). -/
def sub32 (a b : Nat) : Nat := (2 ^ 32 + a - b) % 2 ^ 32

/-- Wrapping of an integer into the `i16` range, used to model Rust `i16`
addition overflow (release-mode semantics). -/
def wrap16 (z : Int) : Int := (z + 2 ^ 15) % 2 ^ 16 - 2 ^ 15

/-- `RawStreamHeader` bit 0: the has-extra-chunks flag. -/
def hasChunksBit (n : Nat) : Bool := n % 2 = 1

/-- `RawStreamHeader` bits 1–4: the sample-rate code. -/
def sampleRateCode (n : Nat) : Nat := n / 2 % 16

/-- `RawStreamHeader` bits 5–6: the channel-count code. -/
def channelsCode (n : Nat) : Nat := n / 32 % 4

/-- `RawStreamHeader` bits 7–33: the data offset in 32-byte units. -/
def dataOffsetRaw (n : Nat) : Nat := n / 128 % 2 ^ 27

/-- `RawStreamHeader` bits 34–63: the sample count. -/
def numSamplesField (n : Nat) : Nat := n / 2 ^ 34 % 2 ^ 30

/-- Reassembly of a `RawStreamHeader` 64-bit word from its fields. -/
def assembleStreamHeaderBits (b : Bool) (sr ch off ns : Nat) : Nat :=
  (if b then 1 else 0) + 2 * sr + 32 * ch + 128 * off + 2 ^ 34 * ns

/-- `RawStreamChunk` bit 0: the more-chunks-follow flag. -/
def moreChunksBit (n : Nat) : Bool := n % 2 = 1

/-- `RawStreamChunk` bits 1–24: the chunk's declared payload size. -/
def chunkSizeField (n : Nat) : Nat := n / 2 % 2 ^ 24

/-- `RawStreamChunk` bits 25–31: the chunk kind code. -/
def chunkKindCode (n : Nat) : Nat := n / 2 ^ 25 % 2 ^ 7

/-- Reassembly of a `RawStreamChunk` 32-bit word from its fields. -/
def assembleChunkBits (m : Bool) (size kind : Nat) : Nat :=
  (if m then 1 else 0) + 2 * size + 2 ^ 25 * kind

/-- Sample-rate code table (`RawStreamHeader::parse`, first match); the error
value is the unmatched flag. -/
def sampleRateFromCode : Nat → Except Nat Nat
  | 0 => .ok 4000
  | 1 => .ok 8000
  | 2 => .ok 11000
  | 3 => .ok 11025
  | 4 => .ok 16000
  | 5 => .ok 22050
  | 6 => .ok 24000
  | 7 => .ok 32000
  | 8 => .ok 44100
  | 9 => .ok 48000
  | 10 => .ok 96000
  | flag => .error flag

/-- Channel-count code table (`RawStreamHeader::parse`, second match).  The
final case models the source's `unreachable!()` branch with the marker value
0 (a channel count the real branches never produce). -/
def channelsFromCode : Nat → Nat
  | 0 => 1
  | 1 => 2
  | 2 => 6
  | 3 => 8
  | _ => 0

/-- `RawStreamHeader::parse`: decode the 64-bit stream bitfield word into a
`StreamHeader`. -/
def parseRawStreamHeader (n streamIndex : Nat) : Except Err StreamHeader :=
  match sampleRateFromCode (sampleRateCode n) with
  | .error flag => .error (.stream streamIndex (.unknownSampleRate flag))
  | .ok sr =>
    if numSamplesField n = 0 then .error (.stream streamIndex .zeroSamples)
    else
      .ok { hasChunks := hasChunksBit n
            sampleRate := sr
            channels := channelsFromCode (channelsCode n)
            dataOffset := dataOffsetRaw n * 32
            numSamples := numSamplesField n
            streamLoop := none
            dspCoeffs := none }

/-- `StreamChunkKind`: the twelve known chunk kinds. -/
inductive StreamChunkKind where
  | channels
  | sampleRate
  | loop
  | comment
  | xmaSeekTable
  | dspCoefficients
  | atrac9Config
  | xwmaConfig
  | vorbisSeekTable
  | peakVolume
  | vorbisIntraLayers
  | opusDataSize
deriving DecidableEq, Repr

/-- `StreamChunk`: a decoded chunk flag word. -/
structure StreamChunk where
  moreChunks : Bool
  size : Nat
  kind : StreamChunkKind
deriving DecidableEq, Repr

/-- Chunk kind code table (`RawStreamChunk::parse`); the error value is the
unmatched flag. -/
def chunkKindFromCode : Nat → Except Nat StreamChunkKind
  | 1 => .ok .channels
  | 2 => .ok .sampleRate
  | 3 => .ok .loop
  | 4 => .ok .comment
  | 6 => .ok .xmaSeekTable
  | 7 => .ok .dspCoefficients
  | 9 => .ok .atrac9Config
  | 10 => .ok .xwmaConfig
  | 11 => .ok .vorbisSeekTable
  | 13 => .ok .peakVolume
  | 14 => .ok .vorbisIntraLayers
  | 15 => .ok .opusDataSize
  | flag => .error flag

/-- `RawStreamChunk::parse`: decode the 32-bit chunk flag word. -/
def parseRawStreamChunk (w chunkIndex : Nat) : Except (Nat × ChunkErrorKind) StreamChunk :=
  match chunkKindFromCode (chunkKindCode w) with
  | .error flag => .error (chunkIndex, .unknownType flag)
  | .ok kind => .ok ⟨moreChunksBit w, chunkSizeField w, kind⟩

/-- `Loop::parse`: `len = end − start` with `u32` (wrapping) subtraction; zero
length is a `ZeroLengthLoop` error scoped to the chunk index. -/
def loopParse (index start stop : Nat) : Except (Nat × ChunkErrorKind) Loop :=
  let len := sub32 stop start
  if len = 0 then .error (index, .zeroLengthLoop) else .ok ⟨start, len⟩

/-- The inner accumulation loop of the `DspCoefficients` branch: read `k`
big-endian `i16` values and fold them into `acc` with wrapping `i16`
addition. -/
def read16Sum : Nat → Int → Rd → Option (Int × Rd)
  | 0, acc, r => some (acc, r)
  | k + 1, acc, r =>
    match r.beI16 with
    | some (v, r') => read16Sum k (wrap16 (acc + v)) r'
    | none => none

/-- One channel of the `DspCoefficients` branch: sixteen big-endian `i16`
reads summed, then a 14-byte skip. -/
def readDspChannel (r : Rd) : Option (Int × Rd) :=
  match read16Sum 16 0 r with
  | some (v, r1) =>
    match r1.skip 14 with
    | some r2 => some (v, r2)
    | none => none
  | none => none

/-- The per-channel loop of the `DspCoefficients` branch: one summed
coefficient per channel, in channel order. -/
def readDspCoeffs : Nat → Rd → Option (List Int × Rd)
  | 0, r => some ([], r)
  | c + 1, r =>
    match readDspChannel r with
    | some (v, r1) =>
      match readDspCoeffs c r1 with
      | some (vs, r2) => some (v :: vs, r2)
      | none => none
    | none => none

/-- The per-kind `match chunk.kind` body of `parse_stream_chunks`: payload
processing for one chunk, between the flag word and the size check. -/
def processChunkPayload (kind : StreamChunkKind) (index : Nat) (r : Rd) (s : StreamHeader) :
    Except (Nat × ChunkErrorKind) (StreamHeader × Rd) :=
  match kind with
  | .channels =>
    match r.u8 with
    | none => .error (index, .channelCount)
    | some (b, r1) =>
      if b = 0 then .error (index, .zeroChannels)
      else .ok ({ s with channels := b }, r1)
  | .sampleRate =>
    match r.leU32 with
    | none => .error (index, .sampleRate)
    | some (v, r1) =>
      if v = 0 then .error (index, .zeroSampleRate)
      else .ok ({ s with sampleRate := v }, r1)
  | .loop =>
    match r.leU32 with
    | none => .error (index, .loopStart)
    | some (start, r1) =>
      match r1.leU32 with
      | none => .error (index, .loopEnd)
      | some (stop, r2) =>
        match loopParse index start stop with
        | .error e => .error e
        | .ok lp => .ok ({ s with streamLoop := some lp }, r2)
  | .dspCoefficients =>
    match readDspCoeffs s.channels r with
    | none => .error (index, .dspCoefficients)
    | some (cs, r1) => .ok ({ s with dspCoeffs := some cs }, r1)
  | .vorbisIntraLayers =>
    match r.leU32 with
    | none => .error (index, .vorbisLayerCount)
    | some (layers, r1) =>
      if 255 < layers then .error (index, .tooManyVorbisLayers layers)
      else if s.channels * layers % 256 = 0 then .error (index, .zeroVorbisLayers)
      else .ok ({ s with channels := s.channels * layers % 256 }, r1)
  | _ => .ok (s, r)

/-- One iteration of the `parse_stream_chunks` loop: read and decode the flag
word, process the payload by kind, then require the cursor to reach exactly
`start_position + chunk.size` (reporting `WrongChunkSize` with the declared
size and the measured advancement otherwise). -/
def chunkStep (r : Rd) (s : StreamHeader) (index : Nat) :
    Except (Nat × ChunkErrorKind) (Bool × StreamHeader × Rd) :=
  match r.leU32 with
  | none => .error (index, .flag)
  | some (w, r1) =>
    match parseRawStreamChunk w index with
    | .error e => .error e
    | .ok ck =>
      let start := r1.pos
      match processChunkPayload ck.kind index r1 s with
      | .error e => .error e
      | .ok (s2, r2) =>
        match r2.advanceTo (start + ck.size) with
        | .ok r3 => .ok (ck.moreChunks, s2, r3)
        | .error r3 => .error (index, .wrongChunkSize ck.size (r3.pos - start))

/-- The `parse_stream_chunks` loop, fuelled.  Each iteration consumes at least
the four flag-word bytes, so `r.data.length + 1` units of fuel (as supplied by
`parseStreamChunks`) always suffice; the fuel-exhaustion branch is
unreachable then. -/
def parseStreamChunksAux : Nat → Rd → StreamHeader → Nat →
    Except (Nat × ChunkErrorKind) (StreamHeader × Rd)
  | 0, _, _, index => .error (index, .flag)
  | fuel + 1, r, s, index =>
    match chunkStep r s index with
    | .error e => .error e
    | .ok (more, s2, r2) =>
      if more then parseStreamChunksAux fuel r2 s2 (index + 1) else .ok (s2, r2)

/-- `parse_stream_chunks`: walk the chunk list of one stream. -/
def parseStreamChunks (r : Rd) (s : StreamHeader) :
    Except (Nat × ChunkErrorKind) (StreamHeader × Rd) :=
  parseStreamChunksAux (r.data.length + 1) r s 0

/-- The first loop of `parse_stream_headers`: read one 64-bit bitfield word
per stream (and, where flagged, its chunk list), in declaration order. -/
def readStreamHeaders : Nat → Nat → Rd → Except Err (List StreamHeader × Rd)
  | 0, _, r => .ok ([], r)
  | n + 1, index, r =>
    match r.leU64 with
    | none => .error (.stream index .streamInfo)
    | some (w, r1) =>
      match parseRawStreamHeader w index with
      | .error e => .error e
      | .ok sh =>
        if sh.hasChunks then
          match parseStreamChunks r1 sh with
          | .error (ci, k) => .error (.chunk index ci k)
          | .ok (sh2, r2) =>
            match readStreamHeaders n (index + 1) r2 with
            | .error e => .error e
            | .ok (tl, r3) => .ok (sh2 :: tl, r3)
        else
          match readStreamHeaders n (index + 1) r1 with
          | .error e => .error e
          | .ok (tl, r3) => .ok (sh :: tl, r3)

/-- The second loop of `parse_stream_headers`: zip adjacent-offset
differences (`u32` subtraction) with the headers, erroring with
`ZeroStreamSize{index}` at the first zero difference. -/
def assignSizesGo : List Nat → List StreamHeader → Nat → Except Err (List StreamInfo)
  | a :: b :: rest, h :: hs, index =>
    let size := sub32 b a
    if size = 0 then .error (.header (.zeroStreamSize index))
    else
      match assignSizesGo (b :: rest) hs (index + 1) with
      | .ok tl => .ok (h.withStreamSize size :: tl)
      | .error e => .error e
  | _, _, _ => .ok []

/-- Stream-size derivation of `parse_stream_headers`: the offsets are the
headers' data offsets followed by the declared total stream-data size. -/
def assignStreamSizes (hs : List StreamHeader) (total : Nat) : Except Err (List StreamInfo) :=
  assignSizesGo (hs.map StreamHeader.dataOffset ++ [total]) hs 0

/-- `parse_stream_headers`: both phases. -/
def parseStreamHeaders (r : Rd) (numStreams total : Nat) :
    Except Err (List StreamInfo × Rd) :=
  match readStreamHeaders numStreams 0 r with
  | .error e => .error e
  | .ok (hs, r') =>
    match assignStreamSizes hs total with
    | .error e => .error e
    | .ok infos => .ok (infos, r')

/-- Modelled from the spec: Rust std `CStr::from_bytes_with_nul`, used by
`read_stream_names`.  It succeeds exactly when the span is nonempty, its last
byte is NUL and no earlier byte is NUL, returning the content without the
terminator. -/
def cstrFromBytesWithNul (bytes : List Nat) : Option (List Nat) :=
  if bytes ≠ [] ∧ bytes.getLast? = some 0 ∧ ¬ 0 ∈ bytes.dropLast then
    some bytes.dropLast
  else none

/-- Helper for `isValidUtf8`: a UTF-8 continuation byte. -/
def isUtf8Cont (b : Nat) : Bool := decide (128 ≤ b ∧ b < 192)

/-- Modelled from the spec: UTF-8 validity as checked by Rust std
`str::from_utf8` (RFC 3629), used by `CStr::to_str` in
`read_stream_names`. -/
def isValidUtf8 : List Nat → Bool
  | [] => true
  | b :: rest =>
    if b < 128 then isValidUtf8 rest
    else if b < 194 then false
    else if b < 224 then
      match rest with
      | c1 :: r => isUtf8Cont c1 && isValidUtf8 r
      | _ => false
    else if b < 240 then
      match rest with
      | c1 :: c2 :: r =>
        (if b = 224 then decide (160 ≤ c1 ∧ c1 < 192)
         else if b = 237 then decide (128 ≤ c1 ∧ c1 < 160)
         else isUtf8Cont c1) && isUtf8Cont c2 && isValidUtf8 r
      | _ => false
    else if b < 245 then
      match rest with
      | c1 :: c2 :: c3 :: r =>
        (if b = 240 then decide (144 ≤ c1 ∧ c1 < 192)
         else if b = 244 then decide (128 ≤ c1 ∧ c1 < 144)
         else isUtf8Cont c1) && isUtf8Cont c2 && isUtf8Cont c3 && isValidUtf8 r
      | _ => false
    else false

/-- `stream_info[index].name = Some(name)`: set the name of the record at
`index`, leaving the list unchanged when the index is out of range. -/
def setStreamName : List StreamInfo → Nat → List Nat → List StreamInfo
  | [], _, _ => []
  | i :: tl, 0, nm => { i with name := some nm } :: tl
  | i :: tl, n + 1, nm => i :: setStreamName tl n nm

/-- `read_stream_names`: walk adjacent offset pairs; for each pair read
`next − current` bytes (`u32` subtraction), require a NUL-terminated string
and valid UTF-8, and assign the decoded name to the stream at that index. -/
def readStreamNamesAux : Rd → List Nat → List StreamInfo → Nat → Except Err (List StreamInfo × Rd)
  | r, a :: b :: rest, infos, index =>
    match r.takeLen (sub32 b a) with
    | none => .error (.name index .name)
    | some (bytes, r1) =>
      match cstrFromBytesWithNul bytes with
      | none => .error (.name index .cstr)
      | some body =>
        if isValidUtf8 body then
          readStreamNamesAux r1 (b :: rest) (setStreamName infos index body) (index + 1)
        else .error (.name index .utf8)
  | r, _, infos, _ => .ok (infos, r)

/-- The name-offset loop of `Header::parse`: read `numStreams` little-endian
32-bit offsets, each failure scoped to its stream index. -/
def readNameOffsets : Nat → Nat → Rd → Except Err (List Nat × Rd)
  | 0, _, r => .ok ([], r)
  | n + 1, index, r =>
    match r.leU32 with
    | none => .error (.name index .nameOffset)
    | some (v, r1) =>
      match readNameOffsets n (index + 1) r1 with
      | .error e => .error e
      | .ok (vs, r2) => .ok (v :: vs, r2)

/-- The optional name-table block of `Header::parse`: skipped entirely when
the declared name-table size is zero, otherwise the offsets are read, the
name-table size is appended as a terminal sentinel, and the names are
resolved. -/
def nameTablePhase (nameTableSize numStreams : Nat) (r : Rd) (infos : List StreamInfo) :
    Except Err (List StreamInfo × Rd) :=
  if nameTableSize = 0 then .ok (infos, r)
  else
    match readNameOffsets numStreams 0 r with
    | .error e => .error e
    | .ok (offs, r1) => readStreamNamesAux r1 (offs ++ [nameTableSize]) infos 0

/-- The ASCII bytes of the `FSB5` magic. -/
def fsb5Magic : List Nat := [70, 83, 66, 53]

/-- `Header::parse`: the full container-header parse. -/
def headerParse (r : Rd) : Except Err Header :=
  match r.takeLen 4 with
  | none => .error (.header .magic)
  | some (m, r1) =>
    if m ≠ fsb5Magic then .error (.header .magic)
    else
      match r1.leU32 with
      | none => .error (.header .version)
      | some (vcode, r2) =>
        match versionFromCode vcode with
        | .error e => .error e
        | .ok version =>
          match r2.leU32 with
          | none => .error (.header .streamCount)
          | some (numStreams, r3) =>
            if numStreams = 0 then .error (.header .zeroStreams)
            else
              match r3.leU32 with
              | none => .error (.header .streamHeadersSize)
              | some (streamHeadersSize, r4) =>
                match r4.leU32 with
                | none => .error (.header .nameTableSize)
                | some (nameTableSize, r5) =>
                  match r5.leU32 with
                  | none => .error (.header .totalStreamSize)
                  | some (totalStreamSize, r6) =>
                    if totalStreamSize = 0 then .error (.header .zeroTotalStreamSize)
                    else
                      match r6.leU32 with
                      | none => .error (.header .codec)
                      | some (codecCode, r7) =>
                        match codecFromCode codecCode with
                        | .error e => .error e
                        | .ok codec =>
                          let baseHeaderSize : Nat :=
                            match version with
                            | .v0 => 64
                            | .v1 => 60
                          match r7.advanceTo baseHeaderSize with
                          | .error _ => .error (.header .metadata)
                          | .ok r8 =>
                            match parseStreamHeaders r8 numStreams totalStreamSize with
                            | .error e => .error e
                            | .ok (infos, r9) =>
                              let headerSize := baseHeaderSize + streamHeadersSize
                              match r9.advanceTo headerSize with
                              | .error rf =>
                                .error (.header (.wrongHeaderSize headerSize rf.pos))
                              | .ok r10 =>
                                match nameTablePhase nameTableSize numStreams r10 infos with
                                | .error e => .error e
                                | .ok (infos2, _) =>
                                  .ok { numStreams := numStreams
                                        codec := codec
                                        streamInfo := infos2 }

/-- The four little-endian bytes of a 32-bit value (used to build concrete
inputs in statements). -/
def le4 (v : Nat) : List Nat :=
  [v % 256, v / 256 % 256, v / 65536 % 256, v / 16777216 % 256]

/-- The adjacent-offset differences (`windows(2)` with `u32` subtraction)
used both for stream sizes and for name lengths. -/
def windowLens (offs : List Nat) : List Nat := List.zipWith sub32 offs.tail offs

/-- A throwaway `StreamInfo` used as the default of `List.getD` in
statements. -/
def defaultInfo : StreamInfo :=
  { sampleRate := 0, channels := 0, numSamples := 0, streamLoop := none
    dspCoeffs := none, size := 0, name := none }

lemma sub32_sub (a b : Nat) (hle : b ≤ a) (ha : a < 2 ^ 32) : sub32 a b = a - b := by
  unfold sub32; omega

lemma assignSizesGo_cons (a b : Nat) (rest : List Nat) (h : StreamHeader)
    (tl : List StreamHeader) (idx : Nat) :
    assignSizesGo (a :: b :: rest) (h :: tl) idx =
      if sub32 b a = 0 then .error (.header (.zeroStreamSize idx))
      else
        match assignSizesGo (b :: rest) tl (idx + 1) with
        | .ok tl2 => .ok (h.withStreamSize (sub32 b a) :: tl2)
        | .error e => .error e := rfl

lemma assignSizesGo_spec (hs : List StreamHeader) :
    ∀ (offs : List Nat) (idx : Nat),
      offs.length = hs.length + 1 →
      List.Chain' (· ≤ ·) offs →
      (∀ x ∈ offs, x < 2 ^ 32) →
      ((∀ infos, assignSizesGo offs hs idx = .ok infos →
          infos.length = hs.length ∧
          ∀ i < hs.length,
            (infos.getD i defaultInfo).size = offs.getD (i + 1) 0 - offs.getD i 0 ∧
            (infos.getD i defaultInfo).size ≠ 0) ∧
        (∀ i < hs.length,
          offs.getD (i + 1) 0 = offs.getD i 0 →
          (∀ j < i, offs.getD (j + 1) 0 ≠ offs.getD j 0) →
          assignSizesGo offs hs idx = .error (.header (.zeroStreamSize (idx + i))))) := by
  induction hs with
  | nil =>
    intro offs idx hlen _ _
    match offs, hlen with
    | [a], _ =>
      refine ⟨?_, ?_⟩
      · intro infos hok
        have h0 : infos = [] := by
          have hr : assignSizesGo [a] [] idx = .ok [] := rfl
          rw [hr] at hok
          exact (Except.ok.inj hok).symm
        subst h0
        exact ⟨rfl, fun i hi => absurd hi (by simp)⟩
      · intro i hi
        exact absurd hi (by simp)
  | cons h tl ih =>
    intro offs idx hlen hchain hbound
    match offs, hlen with
    | a :: b :: rest, hlen =>
      have hab : a ≤ b := (List.chain'_cons.mp hchain).1
      have hchain' : List.Chain' (· ≤ ·) (b :: rest) := (List.chain'_cons.mp hchain).2
      have hb32 : b < 2 ^ 32 := hbound b (by simp)
      have hsub : sub32 b a = b - a := sub32_sub b a hab hb32
      have hbound' : ∀ x ∈ b :: rest, x < 2 ^ 32 := fun x hx => hbound x (by simp_all)
      have ihspec := ih (b :: rest) (idx + 1) (by simpa using hlen) hchain' hbound'
      constructor
      · intro infos hok
        rw [assignSizesGo_cons] at hok
        by_cases hz : sub32 b a = 0
        · rw [if_pos hz] at hok; cases hok
        · rw [if_neg hz] at hok
          cases htl : assignSizesGo (b :: rest) tl (idx + 1) with
          | error e => rw [htl] at hok; cases hok
          | ok tlinfos =>
            rw [htl] at hok
            cases hok
            have hihtl := ihspec.1 tlinfos htl
            refine ⟨by simpa using hihtl.1, ?_⟩
            intro i hi
            match i with
            | 0 =>
              simp only [List.getD_cons_zero, List.getD_cons_succ]
              exact ⟨by simp [StreamHeader.withStreamSize, hsub],
                by simp [StreamHeader.withStreamSize, hsub]; omega⟩
            | i + 1 =>
              simp only [List.getD_cons_succ]
              exact hihtl.2 i (by simpa using hi)
      · intro i hi heq hfirst
        match i with
        | 0 =>
          simp only [List.getD_cons_zero, List.getD_cons_succ] at heq
          rw [assignSizesGo_cons]
          have hz : sub32 b a = 0 := by rw [hsub, heq]; omega
          rw [if_pos hz, Nat.add_zero]
        | i + 1 =>
          simp only [List.getD_cons_succ] at heq
          have hfirst' : ∀ j < i, (b :: rest).getD (j + 1) 0 ≠ (b :: rest).getD j 0 := by
            intro j hj
            have := hfirst (j + 1) (by omega)
            simpa using this
          have h0 : (a :: b :: rest).getD 1 0 ≠ (a :: b :: rest).getD 0 0 := hfirst 0 (by omega)
          simp only [List.getD_cons_succ, List.getD_cons_zero] at h0
          have herr := ihspec.2 i (by simpa using hi) heq hfirst'
          rw [assignSizesGo_cons]
          have hne : ¬ sub32 b a = 0 := by rw [hsub]; omega
          rw [if_neg hne, herr]
          have harith : idx + 1 + i = idx + (i + 1) := by omega
          rw [harith]

/-- C1: when the per-stream data offsets (with the declared total stream-data
size as final upper bound) are monotonically non-decreasing, every stream's
derived byte size on success equals the next offset minus its own offset and
is nonzero, and a zero difference first occurring at stream index `i` makes
the parse fail with `ZeroStreamSize{index: i}` (so no `Header` is
returned). -/
theorem c1_stream_size_differencing (hs : List StreamHeader) (total : Nat)
    (hchain : List.Chain' (· ≤ ·) (hs.map StreamHeader.dataOffset ++ [total]))
    (hoff : ∀ x ∈ hs, x.dataOffset < 2 ^ 32) (htot : total < 2 ^ 32) :
    (∀ infos, assignStreamSizes hs total = .ok infos →
      infos.length = hs.length ∧
      ∀ i < hs.length,
        (infos.getD i defaultInfo).size =
          (hs.map StreamHeader.dataOffset ++ [total]).getD (i + 1) 0 -
            (hs.map StreamHeader.dataOffset ++ [total]).getD i 0 ∧
        (infos.getD i defaultInfo).size ≠ 0) ∧
    (∀ i < hs.length,
      (hs.map StreamHeader.dataOffset ++ [total]).getD (i + 1) 0 =
          (hs.map StreamHeader.dataOffset ++ [total]).getD i 0 →
      (∀ j < i, (hs.map StreamHeader.dataOffset ++ [total]).getD (j + 1) 0 ≠
          (hs.map StreamHeader.dataOffset ++ [total]).getD j 0) →
      assignStreamSizes hs total = .error (.header (.zeroStreamSize i))) := by
  have hbound : ∀ x ∈ hs.map StreamHeader.dataOffset ++ [total], x < 2 ^ 32 := by
    intro x hx
    rcases List.mem_append.mp hx with hx | hx
    · obtain ⟨y, hy, rfl⟩ := List.mem_map.mp hx
      exact hoff y hy
    · simp_all
  have hlen : (hs.map StreamHeader.dataOffset ++ [total]).length = hs.length + 1 := by
    simp
  have hspec := assignSizesGo_spec hs (hs.map StreamHeader.dataOffset ++ [total]) 0
    hlen hchain hbound
  exact ⟨hspec.1, fun i hi h1 h2 => by simpa using hspec.2 i hi h1 h2⟩

/-- A concrete stream header used by several witnesses. -/
def sampleStream : StreamHeader :=
  { hasChunks := true, sampleRate := 44100, channels := 2, dataOffset := 32
    numSamples := 1, streamLoop := none, dspCoeffs := none }

theorem c1_stream_size_differencing_witness :
    assignStreamSizes [sampleStream, sampleStream] 96 =
      .error (.header (.zeroStreamSize 0)) :=
  (c1_stream_size_differencing [sampleStream, sampleStream] 96
      (by simp [sampleStream, List.chain'_cons]) (by simp [sampleStream])
      (by norm_num)).2 0 (by simp) (by decide)
    (fun j hj => absurd hj (by omega))

/-- C4 counterexample: a Comment chunk with declared size 1 whose payload is
never read.  After the per-kind processing the cursor is at the payload start
(position 4), not at start + size = 5, yet parsing succeeds (the cursor is
skipped forward) instead of failing with `WrongChunkSize`. -/
theorem c4_counterexample :
    parseRawStreamChunk 134217730 0 = .ok ⟨false, 1, .comment⟩ ∧
    processChunkPayload .comment 0 ⟨[2, 0, 0, 8, 99], 4⟩ sampleStream =
      .ok (sampleStream, ⟨[2, 0, 0, 8, 99], 4⟩) ∧
    (4 : Nat) ≠ 4 + 1 ∧
    chunkStep ⟨[2, 0, 0, 8, 99], 0⟩ sampleStream 0 =
      .ok (false, sampleStream, ⟨[2, 0, 0, 8, 99], 5⟩) := by
  refine ⟨rfl, rfl, by decide, rfl⟩

/-- C4 (amended): after the per-kind payload processing the parser advances
the cursor to (payload start + declared size), discarding any unread payload
bytes; it fails with `WrongChunkSize{expected, actual}` — `expected` the
declared size and `actual` the measured cursor advancement over the payload —
exactly when the cursor has advanced past that target or the target lies
beyond the end of the input. -/
theorem c4_chunk_size_check (r : Rd) (s : StreamHeader) (index w : Nat) (r1 : Rd)
    (ck : StreamChunk) (s2 : StreamHeader) (r2 : Rd)
    (hw : r.leU32 = some (w, r1))
    (hck : parseRawStreamChunk w index = .ok ck)
    (hp : processChunkPayload ck.kind index r1 s = .ok (s2, r2)) :
    (r2.pos ≤ r1.pos + ck.size → r1.pos + ck.size ≤ r2.data.length →
      chunkStep r s index = .ok (ck.moreChunks, s2, ⟨r2.data, r1.pos + ck.size⟩)) ∧
    (r1.pos + ck.size < r2.pos →
      chunkStep r s index = .error (index, .wrongChunkSize ck.size (r2.pos - r1.pos))) ∧
    (r2.pos ≤ r1.pos + ck.size → r2.data.length < r1.pos + ck.size →
      chunkStep r s index = .error (index, .wrongChunkSize ck.size (r2.data.length - r1.pos))) := by
  refine ⟨?_, ?_, ?_⟩
  · intro h1 h2
    simp only [chunkStep, hw, hck, hp, Rd.advanceTo]
    rw [if_neg (by omega), if_pos (by omega)]
  · intro h1
    simp only [chunkStep, hw, hck, hp, Rd.advanceTo]
    rw [if_pos (by omega)]
  · intro h1 h2
    simp only [chunkStep, hw, hck, hp, Rd.advanceTo]
    rw [if_neg (by omega), if_neg (by omega)]

theorem c4_chunk_size_check_witness :
    chunkStep ⟨[2, 0, 0, 8, 99], 0⟩ sampleStream 0 =
      .error (0, .wrongChunkSize 1 0) ∨
    chunkStep ⟨[2, 0, 0, 8, 99], 0⟩ sampleStream 0 =
      .ok (false, sampleStream, ⟨[2, 0, 0, 8, 99], 5⟩) :=
  Or.inr
    ((c4_chunk_size_check ⟨[2, 0, 0, 8, 99], 0⟩ sampleStream 0 134217730
        ⟨[2, 0, 0, 8, 99], 4⟩ ⟨false, 1, .comment⟩ sampleStream ⟨[2, 0, 0, 8, 99], 4⟩
        (by decide) rfl rfl).1 (by decide) (by decide))

/-- C5: a Loop chunk reads a little-endian 32-bit start then end, builds a
`Loop` of length end − start (wrapping `u32` subtraction), fails with
`ZeroLengthLoop` exactly when start = end, and attaches a loop only with
nonzero length. -/
theorem c5_loop_chunk (index : Nat) (r r1 r2 : Rd) (s : StreamHeader) (start stop : Nat)
    (hst : r.leU32 = some (start, r1)) (hen : r1.leU32 = some (stop, r2))
    (hs32 : start < 2 ^ 32) (he32 : stop < 2 ^ 32) :
    (start ≤ stop → sub32 stop start = stop - start) ∧
    (start = stop → processChunkPayload .loop index r s = .error (index, .zeroLengthLoop)) ∧
    (start ≠ stop →
      processChunkPayload .loop index r s =
        .ok ({ s with streamLoop := some ⟨start, sub32 stop start⟩ }, r2) ∧
      sub32 stop start ≠ 0) ∧
    (∀ s2 r3, processChunkPayload .loop index r s = .ok (s2, r3) →
      ∃ lp : Loop, s2.streamLoop = some lp ∧ lp.len ≠ 0) := by
  have hiff : sub32 stop start = 0 ↔ start = stop := by unfold sub32; omega
  refine ⟨?_, ?_, ?_, ?_⟩
  · intro hle; unfold sub32; omega
  · intro heq
    simp only [processChunkPayload, hst, hen, loopParse]
    rw [if_pos (hiff.mpr heq)]
  · intro hne
    refine ⟨?_, fun h0 => hne (hiff.mp h0)⟩
    simp only [processChunkPayload, hst, hen, loopParse]
    rw [if_neg (fun h0 => hne (hiff.mp h0))]
  · intro s2 r3 hok
    simp only [processChunkPayload, hst, hen, loopParse] at hok
    by_cases hss : start = stop
    · rw [if_pos (hiff.mpr hss)] at hok; cases hok
    · rw [if_neg (fun h0 => hss (hiff.mp h0))] at hok
      cases hok
      exact ⟨⟨start, sub32 stop start⟩, rfl, fun h0 => hss (hiff.mp h0)⟩

theorem c5_loop_chunk_witness :
    processChunkPayload .loop 0 ⟨[3, 0, 0, 0, 10, 0, 0, 0], 0⟩ sampleStream =
      .ok ({ sampleStream with streamLoop := some ⟨3, 7⟩ }, ⟨[3, 0, 0, 0, 10, 0, 0, 0], 8⟩) :=
  ((c5_loop_chunk 0 ⟨[3, 0, 0, 0, 10, 0, 0, 0], 0⟩ ⟨[3, 0, 0, 0, 10, 0, 0, 0], 4⟩
      ⟨[3, 0, 0, 0, 10, 0, 0, 0], 8⟩ sampleStream 3 10 (by decide) (by decide)
      (by norm_num) (by norm_num)).2.2.1 (by decide)).1

/-- C7 counterexample: with the stream at 2 channels, a VorbisIntraLayers
chunk declaring 128 layers has product 2 × 128 = 256 ≠ 0, yet parsing fails
with `ZeroVorbisLayers` (the `u8` product wraps to 0) instead of replacing
the channel count by 256. -/
theorem c7_counterexample :
    sampleStream.channels = 2 ∧ (2 * 128 : Nat) ≠ 0 ∧
    processChunkPayload .vorbisIntraLayers 0 ⟨[128, 0, 0, 0], 0⟩ sampleStream =
      .error (0, .zeroVorbisLayers) := by
  refine ⟨by decide, by decide, rfl⟩

/-- C7 (amended): a VorbisIntraLayers chunk reads a little-endian 32-bit layer
count; a value above 255 fails with `TooManyVorbisLayers{layers}` carrying the
original value; otherwise the channel count is replaced by
(channels × layers) mod 256 (`u8` wrapping product), and a zero result —
zero layers or wrap-around to zero — fails with `ZeroVorbisLayers`. -/
theorem c7_vorbis_layers (index : Nat) (r : Rd) (s : StreamHeader) (layers : Nat) (r1 : Rd)
    (hr : r.leU32 = some (layers, r1)) :
    (255 < layers →
      processChunkPayload .vorbisIntraLayers index r s =
        .error (index, .tooManyVorbisLayers layers)) ∧
    (layers ≤ 255 → s.channels * layers % 256 = 0 →
      processChunkPayload .vorbisIntraLayers index r s = .error (index, .zeroVorbisLayers)) ∧
    (layers ≤ 255 → s.channels * layers % 256 ≠ 0 →
      processChunkPayload .vorbisIntraLayers index r s =
        .ok ({ s with channels := s.channels * layers % 256 }, r1)) := by
  refine ⟨?_, ?_, ?_⟩
  · intro h
    simp only [processChunkPayload, hr]
    rw [if_pos h]
  · intro h1 h2
    simp only [processChunkPayload, hr]
    rw [if_neg (by omega), if_pos h2]
  · intro h1 h2
    simp only [processChunkPayload, hr]
    rw [if_neg (by omega), if_neg h2]

theorem c7_vorbis_layers_witness :
    processChunkPayload .vorbisIntraLayers 0 ⟨[3, 0, 0, 0], 0⟩ sampleStream =
      .ok ({ sampleStream with channels := 6 }, ⟨[3, 0, 0, 0], 4⟩) := by
  have h := (c7_vorbis_layers 0 ⟨[3, 0, 0, 0], 0⟩ sampleStream 3 ⟨[3, 0, 0, 0], 4⟩
    (by decide)).2.2 (by norm_num) (by decide)
  simpa [sampleStream] using h


/-- C2: the 64-bit stream bitfield word (bit 0 has-chunks, bits 1–4 sample
rate, bits 5–6 channels, bits 7–33 data offset in 32-byte units, bits 34–63
sample count) and the 32-bit chunk flag word (bit 0 more-chunks, bits 1–24
payload size, bits 25–31 kind) decompose and reassemble losslessly, field by
field. -/
theorem c2_bitfield_roundtrip :
    (∀ n, n < 2 ^ 64 →
      assembleStreamHeaderBits (hasChunksBit n) (sampleRateCode n) (channelsCode n)
        (dataOffsetRaw n) (numSamplesField n) = n) ∧
    (∀ (b : Bool) (sr ch off ns : Nat), sr < 16 → ch < 4 → off < 2 ^ 27 → ns < 2 ^ 30 →
      hasChunksBit (assembleStreamHeaderBits b sr ch off ns) = b ∧
      sampleRateCode (assembleStreamHeaderBits b sr ch off ns) = sr ∧
      channelsCode (assembleStreamHeaderBits b sr ch off ns) = ch ∧
      dataOffsetRaw (assembleStreamHeaderBits b sr ch off ns) = off ∧
      numSamplesField (assembleStreamHeaderBits b sr ch off ns) = ns) ∧
    (∀ w, w < 2 ^ 32 →
      assembleChunkBits (moreChunksBit w) (chunkSizeField w) (chunkKindCode w) = w) ∧
    (∀ (m : Bool) (size kind : Nat), size < 2 ^ 24 → kind < 2 ^ 7 →
      moreChunksBit (assembleChunkBits m size kind) = m ∧
      chunkSizeField (assembleChunkBits m size kind) = size ∧
      chunkKindCode (assembleChunkBits m size kind) = kind) := by
  refine ⟨?_, ?_, ?_, ?_⟩
  · intro n hn
    rcases Nat.mod_two_eq_zero_or_one n with h2 | h2 <;>
      simp only [assembleStreamHeaderBits, hasChunksBit, sampleRateCode, channelsCode,
        dataOffsetRaw, numSamplesField, h2] <;>
      norm_num <;> omega
  · intro b sr ch off ns h1 h2 h3 h4
    cases b <;>
      simp only [assembleStreamHeaderBits, hasChunksBit, sampleRateCode, channelsCode,
        dataOffsetRaw, numSamplesField, if_true, if_false, Bool.false_eq_true] <;>
      norm_num <;>
      refine ⟨by omega, by omega, by omega, by omega⟩
  · intro w hw
    rcases Nat.mod_two_eq_zero_or_one w with h2 | h2 <;>
      simp only [assembleChunkBits, moreChunksBit, chunkSizeField, chunkKindCode, h2] <;>
      norm_num <;> omega
  · intro m size kind h1 h2
    cases m <;>
      simp only [assembleChunkBits, moreChunksBit, chunkSizeField, chunkKindCode,
        if_true, if_false, Bool.false_eq_true] <;>
      norm_num <;>
      refine ⟨by omega, by omega⟩

theorem c2_bitfield_roundtrip_witness :
    assembleStreamHeaderBits (hasChunksBit 17179869360) (sampleRateCode 17179869360)
      (channelsCode 17179869360) (dataOffsetRaw 17179869360) (numSamplesField 17179869360) =
      17179869360 ∧
    sampleRateCode (assembleStreamHeaderBits true 8 1 1 1) = 8 ∧
    assembleChunkBits (moreChunksBit 134217730) (chunkSizeField 134217730)
      (chunkKindCode 134217730) = 134217730 ∧
    chunkKindCode (assembleChunkBits false 1 4) = 4 :=
  ⟨c2_bitfield_roundtrip.1 17179869360 (by norm_num),
   (c2_bitfield_roundtrip.2.1 true 8 1 1 1 (by norm_num) (by norm_num) (by norm_num)
     (by norm_num)).2.1,
   c2_bitfield_roundtrip.2.2.1 134217730 (by norm_num),
   (c2_bitfield_roundtrip.2.2.2 false 1 4 (by norm_num) (by norm_num)).2.2⟩

lemma sampleRateFromCode_err (c : Nat) (h : 11 ≤ c) : sampleRateFromCode c = .error c := by
  unfold sampleRateFromCode
  split <;> first | rfl | omega

lemma sampleRateFromCode_ok (c sr : Nat) (h : sampleRateFromCode c = .ok sr) :
    sr = [4000, 8000, 11000, 11025, 16000, 22050, 24000, 32000, 44100, 48000,
      96000].getD c 0 := by
  unfold sampleRateFromCode at h
  split at h <;> simp_all

lemma channelsFromCode_table (d : Nat) (h : d < 4) :
    channelsFromCode d = [1, 2, 6, 8].getD d 0 := by
  interval_cases d <;> rfl

/-- C3: the sample-rate code table is exactly
{0:4000, 1:8000, 2:11000, 3:11025, 4:16000, 5:22050, 6:24000, 7:32000,
8:44100, 9:48000, 10:96000}, every code 11–15 fails with
`UnknownSampleRate{flag}` scoped to the stream index, the channel code table
is exactly {0:1, 1:2, 2:6, 3:8}, and the channel fallback branch is dead for
all inputs. -/
theorem c3_code_tables :
    ∀ n idx,
      (11 ≤ sampleRateCode n →
        parseRawStreamHeader n idx =
          .error (.stream idx (.unknownSampleRate (sampleRateCode n)))) ∧
      (∀ sh, parseRawStreamHeader n idx = .ok sh →
        sh.sampleRate = [4000, 8000, 11000, 11025, 16000, 22050, 24000, 32000,
          44100, 48000, 96000].getD (sampleRateCode n) 0 ∧
        sh.channels = [1, 2, 6, 8].getD (channelsCode n) 0) ∧
      channelsCode n < 4 ∧ channelsFromCode (channelsCode n) ≠ 0 := by
  intro n idx
  have hch : channelsCode n < 4 := Nat.mod_lt _ (by norm_num)
  refine ⟨?_, ?_, hch, ?_⟩
  · intro h11
    unfold parseRawStreamHeader
    rw [sampleRateFromCode_err _ h11]
  · intro sh hok
    unfold parseRawStreamHeader at hok
    split at hok
    · cases hok
    · split at hok
      · cases hok
      · cases hok
        rename_i sr hsr _
        refine ⟨sampleRateFromCode_ok _ _ hsr, ?_⟩
        exact channelsFromCode_table _ hch
  · interval_cases h : channelsCode n <;> decide

theorem c3_code_tables_witness :
    ({ hasChunks := false, sampleRate := 44100, channels := 2, dataOffset := 32,
        numSamples := 1, streamLoop := none, dspCoeffs := none } : StreamHeader).sampleRate =
      [4000, 8000, 11000, 11025, 16000, 22050, 24000, 32000, 44100, 48000,
        96000].getD (sampleRateCode 17179869360) 0 ∧
    ({ hasChunks := false, sampleRate := 44100, channels := 2, dataOffset := 32,
        numSamples := 1, streamLoop := none, dspCoeffs := none } : StreamHeader).channels =
      [1, 2, 6, 8].getD (channelsCode 17179869360) 0 :=
  (c3_code_tables 17179869360 0).2.1
    { hasChunks := false, sampleRate := 44100, channels := 2, dataOffset := 32
      numSamples := 1, streamLoop := none, dspCoeffs := none } rfl

/-- The numeric value a successful `be_i16` read at position `p` yields. -/
def i16At (data : List Nat) (p : Nat) : Int :=
  toSigned16 (data.getD p 0 * 256 + data.getD (p + 1) 0)

lemma headD_eq_getD (l : List Nat) (d : Nat) : l.headD d = l.getD 0 d := by
  cases l <;> rfl

lemma takeLen_spec (r : Rd) (n : Nat) (bs : List Nat) (r' : Rd)
    (h : r.takeLen n = some (bs, r')) :
    r'.data = r.data ∧ r'.pos = r.pos + n ∧ r.pos + n ≤ r.data.length ∧
    bs = (r.data.drop r.pos).take n := by
  unfold Rd.takeLen at h
  split at h
  · rename_i hle
    cases h
    exact ⟨rfl, rfl, hle, rfl⟩
  · cases h

lemma take_drop_getD (l : List Nat) (p n i d : Nat) (hi : i < n) :
    ((l.drop p).take n).getD i d = l.getD (p + i) d := by
  simp [List.getD_eq_getElem?_getD, List.getElem?_take, hi, List.getElem?_drop]

lemma skip_spec (r : Rd) (n : Nat) (r' : Rd) (h : r.skip n = some r') :
    r'.data = r.data ∧ r'.pos = r.pos + n ∧ r.pos + n ≤ r.data.length := by
  unfold Rd.skip at h
  cases htl : r.takeLen n with
  | none => simp only [htl] at h; cases h
  | some p =>
    obtain ⟨bs, r1⟩ := p
    simp only [htl] at h
    have hr : r1 = r' := by simpa using h
    subst hr
    obtain ⟨hd, hp, hle, _⟩ := takeLen_spec _ _ _ _ htl
    exact ⟨hd, hp, hle⟩

lemma beI16_spec (r : Rd) (v : Int) (r' : Rd) (h : r.beI16 = some (v, r')) :
    r'.data = r.data ∧ r'.pos = r.pos + 2 ∧ r.pos + 2 ≤ r.data.length ∧
    v = i16At r.data r.pos := by
  unfold Rd.beI16 at h
  cases htl : r.takeLen 2 with
  | none => simp only [htl] at h; cases h
  | some p =>
    obtain ⟨bs, r1⟩ := p
    simp only [htl] at h
    obtain ⟨hv, hr⟩ : toSigned16 (bs.headD 0 * 256 + bs.getD 1 0) = v ∧ r1 = r' := by
      simpa using h
    subst hv hr
    obtain ⟨hd, hp, hle, hbs⟩ := takeLen_spec _ _ _ _ htl
    subst hbs
    refine ⟨hd, hp, hle, ?_⟩
    unfold i16At
    rw [headD_eq_getD, take_drop_getD _ _ _ _ _ (by norm_num),
      take_drop_getD _ _ _ _ _ (by norm_num)]
    norm_num

lemma read16Sum_spec : ∀ (k : Nat) (acc : Int) (r : Rd) (v : Int) (r' : Rd),
    read16Sum k acc r = some (v, r') →
    r'.data = r.data ∧ r'.pos = r.pos + 2 * k ∧
    v = (List.range k).foldl (fun a j => wrap16 (a + i16At r.data (r.pos + 2 * j))) acc := by
  intro k
  induction k with
  | zero =>
    intro acc r v r' h
    cases h
    exact ⟨rfl, by omega, by simp⟩
  | succ k ih =>
    intro acc r v r' h
    unfold read16Sum at h
    cases hbe : r.beI16 with
    | none => simp only [hbe] at h; cases h
    | some p =>
      obtain ⟨b, r1⟩ := p
      simp only [hbe] at h
      obtain ⟨hd, hp, _, hv⟩ := beI16_spec _ _ _ hbe
      obtain ⟨ihd, ihp, ihv⟩ := ih (wrap16 (acc + b)) r1 v r' h
      refine ⟨by rw [ihd, hd], by rw [ihp, hp]; ring, ?_⟩
      rw [ihv, hd, hp, hv]
      rw [List.range_succ_eq_map, List.foldl_cons, List.foldl_map]
      have harg : ∀ j : Nat, r.pos + 2 * Nat.succ j = r.pos + 2 + 2 * j := fun j => by omega
      simp only [Nat.mul_zero, Nat.add_zero, harg]

lemma readDspChannel_spec (r : Rd) (v : Int) (r' : Rd) (h : readDspChannel r = some (v, r')) :
    r' = ⟨r.data, r.pos + 46⟩ ∧
    read16Sum 16 0 r = some (v, ⟨r.data, r.pos + 32⟩) := by
  unfold readDspChannel at h
  cases h16 : read16Sum 16 0 r with
  | none => simp only [h16] at h; cases h
  | some p =>
    obtain ⟨v1, r1⟩ := p
    simp only [h16] at h
    cases hsk : r1.skip 14 with
    | none => simp only [hsk] at h; cases h
    | some r2 =>
      simp only [hsk] at h
      obtain ⟨hv, hr⟩ : v1 = v ∧ r2 = r' := by simpa using h
      subst hv
      obtain ⟨h16d, h16p, _⟩ := read16Sum_spec _ _ _ _ _ h16
      obtain ⟨hsd, hsp, _⟩ := skip_spec _ _ _ hsk
      have hr1eq : r1 = ⟨r.data, r.pos + 32⟩ := by
        obtain ⟨d1, p1⟩ := r1
        have hd : d1 = r.data := h16d
        have hp : p1 = r.pos + 2 * 16 := h16p
        subst hd
        have hp32 : p1 = r.pos + 32 := by omega
        rw [hp32]
      have hr2eq : r2 = ⟨r.data, r.pos + 46⟩ := by
        obtain ⟨d2, p2⟩ := r2
        have hd : d2 = r1.data := hsd
        have hp : p2 = r1.pos + 14 := hsp
        rw [h16d] at hd
        rw [h16p] at hp
        subst hd
        have hp46 : p2 = r.pos + 46 := by omega
        rw [hp46]
      refine ⟨by rw [← hr]; exact hr2eq, ?_⟩
      rw [hr1eq]

lemma readDspCoeffs_spec : ∀ (ch : Nat) (r : Rd) (cs : List Int) (r' : Rd),
    readDspCoeffs ch r = some (cs, r') →
    cs.length = ch ∧ r' = ⟨r.data, r.pos + 46 * ch⟩ ∧
    ∀ c < ch, readDspChannel ⟨r.data, r.pos + 46 * c⟩ =
      some (cs.getD c 0, ⟨r.data, r.pos + 46 * c + 46⟩) := by
  intro ch
  induction ch with
  | zero =>
    intro r cs r' h
    cases h
    exact ⟨rfl, by simp, fun c hc => absurd hc (by omega)⟩
  | succ ch ih =>
    intro r cs r' h
    unfold readDspCoeffs at h
    cases hchan : readDspChannel r with
    | none => simp only [hchan] at h; cases h
    | some p =>
      obtain ⟨v, r1⟩ := p
      simp only [hchan] at h
      cases hrest : readDspCoeffs ch r1 with
      | none => simp only [hrest] at h; cases h
      | some q =>
        obtain ⟨vs, r2⟩ := q
        simp only [hrest] at h
        obtain ⟨hcs, hr⟩ : v :: vs = cs ∧ r2 = r' := by simpa using h
        subst hcs hr
        obtain ⟨hr1, _⟩ := readDspChannel_spec _ _ _ hchan
        subst hr1
        obtain ⟨hlen, hr2, hidx⟩ := ih _ vs _ hrest
        have hr2e : r2 = ⟨r.data, r.pos + 46 + 46 * ch⟩ := hr2
        have hidxe : ∀ c < ch, readDspChannel ⟨r.data, r.pos + 46 + 46 * c⟩ =
            some (vs.getD c 0, ⟨r.data, r.pos + 46 + 46 * c + 46⟩) := hidx
        refine ⟨by simp [hlen], ?_, ?_⟩
        · rw [hr2e]
          congr 1
          ring
        · intro c hc
          match c with
          | 0 => simpa using hchan
          | c + 1 =>
            have hx := hidxe c (by omega)
            have ha1 : r.pos + 46 + 46 * c = r.pos + 46 * (c + 1) := by ring
            rw [ha1] at hx
            simpa using hx

lemma processChunkPayload_dsp (index : Nat) (r : Rd) (s : StreamHeader) :
    processChunkPayload .dspCoefficients index r s =
      match readDspCoeffs s.channels r with
      | none => .error (index, .dspCoefficients)
      | some (cs, r1) => .ok ({ s with dspCoeffs := some cs }, r1) := rfl

/-- C6: a DspCoefficients chunk loops once per (possibly already-overridden)
channel; each channel contributes the wrapping `i16` sum of sixteen big-endian
signed 16-bit reads, followed by a 14-byte skip (46 bytes per channel in
all), and the coefficient table has exactly one entry per channel, in channel
order. -/
theorem c6_dsp_coefficients :
    (∀ (index : Nat) (r : Rd) (s s2 : StreamHeader) (r2 : Rd),
      processChunkPayload .dspCoefficients index r s = .ok (s2, r2) →
      ∃ cs, readDspCoeffs s.channels r = some (cs, r2) ∧
        s2 = { s with dspCoeffs := some cs }) ∧
    (∀ (ch : Nat) (r : Rd) (cs : List Int) (r' : Rd),
      readDspCoeffs ch r = some (cs, r') →
      cs.length = ch ∧ r' = ⟨r.data, r.pos + 46 * ch⟩ ∧
      ∀ c < ch, readDspChannel ⟨r.data, r.pos + 46 * c⟩ =
        some (cs.getD c 0, ⟨r.data, r.pos + 46 * c + 46⟩)) ∧
    (∀ (r : Rd) (v : Int) (r' : Rd), readDspChannel r = some (v, r') →
      r' = ⟨r.data, r.pos + 46⟩ ∧
      read16Sum 16 0 r = some (v, ⟨r.data, r.pos + 32⟩)) ∧
    (∀ (k : Nat) (acc : Int) (r : Rd) (v : Int) (r' : Rd),
      read16Sum k acc r = some (v, r') →
      r'.pos = r.pos + 2 * k ∧
      v = (List.range k).foldl (fun a j => wrap16 (a + i16At r.data (r.pos + 2 * j))) acc) := by
  refine ⟨?_, ?_, ?_, ?_⟩
  · intro index r s s2 r2 h
    rw [processChunkPayload_dsp] at h
    cases hro : readDspCoeffs s.channels r with
    | none => simp only [hro] at h; cases h
    | some p =>
      obtain ⟨cs, r1⟩ := p
      simp only [hro] at h
      obtain ⟨hs2, hr⟩ : { s with dspCoeffs := some cs } = s2 ∧ r1 = r2 := by simpa using h
      subst hr
      exact ⟨cs, rfl, hs2.symm⟩
  · intro ch r cs r' h
    exact readDspCoeffs_spec ch r cs r' h
  · intro r v r' h
    exact readDspChannel_spec r v r' h
  · intro k acc r v r' h
    obtain ⟨_, hp, hv⟩ := read16Sum_spec k acc r v r' h
    exact ⟨hp, hv⟩

theorem c6_dsp_coefficients_witness :
    (⟨List.replicate 46 1, 32⟩ : Rd).pos = (⟨List.replicate 46 1, 0⟩ : Rd).pos + 2 * 16 ∧
    (4112 : Int) = (List.range 16).foldl
      (fun a j => wrap16 (a + i16At (⟨List.replicate 46 1, 0⟩ : Rd).data
        ((⟨List.replicate 46 1, 0⟩ : Rd).pos + 2 * j))) 0 :=
  c6_dsp_coefficients.2.2.2 16 0 ⟨List.replicate 46 1, 0⟩ 4112
    ⟨List.replicate 46 1, 32⟩ (by decide)

lemma length_le4 (v : Nat) : (le4 v).length = 4 := rfl

lemma bytesToNatLE_le4 (v : Nat) (hv : v < 2 ^ 32) : bytesToNatLE (le4 v) = v := by
  simp only [le4, bytesToNatLE]
  omega

lemma leU32_concat (pre suf : List Nat) (v : Nat) (hv : v < 2 ^ 32) (r : Rd)
    (hd : r.data = pre ++ le4 v ++ suf) (hp : r.pos = pre.length) :
    r.leU32 = some (v, ⟨r.data, r.pos + 4⟩) := by
  obtain ⟨data, pos⟩ := r
  simp only at hd hp
  subst hd hp
  unfold Rd.leU32 Rd.takeLen
  rw [List.append_assoc]
  have hlen : pre.length + 4 ≤ (pre ++ (le4 v ++ suf)).length := by
    simp [length_le4]
  rw [if_pos hlen]
  simp only [List.drop_left, List.take_left' (length_le4 v), bytesToNatLE_le4 v hv]

lemma leU32_short (r : Rd) (h : r.data.length < r.pos + 4) : r.leU32 = none := by
  unfold Rd.leU32 Rd.takeLen
  rw [if_neg (by omega)]

lemma takeLen4_magic (rest : List Nat) :
    Rd.takeLen ⟨fsb5Magic ++ rest, 0⟩ 4 = some (fsb5Magic, ⟨fsb5Magic ++ rest, 4⟩) := by
  unfold Rd.takeLen
  have hlen : 0 + 4 ≤ (fsb5Magic ++ rest).length := by simp [fsb5Magic]
  rw [if_pos hlen]
  simp [fsb5Magic]

lemma advanceTo_past (data : List Nat) (pos target : Nat) (h1 : pos ≤ target)
    (h2 : data.length < target) :
    Rd.advanceTo ⟨data, pos⟩ target = .error ⟨data, data.length⟩ := by
  show (if target < pos then Except.error (⟨data, pos⟩ : Rd)
    else if target ≤ data.length then Except.ok (⟨data, target⟩ : Rd)
    else Except.error (⟨data, data.length⟩ : Rd)) = _
  rw [if_neg (by omega), if_neg (by omega)]

/-- C8: a missing or wrong `FSB5` magic (including the empty input) is a
`Magic` error, and truncating a well-formed prefix exactly at the start of
each successive fixed header field yields that field's own error kind:
StreamCount, StreamHeadersSize, NameTableSize, TotalStreamSize, Codec,
Metadata, in that order. -/
theorem c8_truncation_errors :
    (∀ data : List Nat, data.take 4 ≠ fsb5Magic →
      headerParse ⟨data, 0⟩ = .error (.header .magic)) ∧
    headerParse ⟨[], 0⟩ = .error (.header .magic) ∧
    (∀ v, (v = 0 ∨ v = 1) →
      headerParse ⟨fsb5Magic ++ le4 v, 0⟩ = .error (.header .streamCount)) ∧
    (∀ v ns, (v = 0 ∨ v = 1) → ns < 2 ^ 32 → ns ≠ 0 →
      headerParse ⟨fsb5Magic ++ (le4 v ++ le4 ns), 0⟩ =
        .error (.header .streamHeadersSize)) ∧
    (∀ v ns hs, (v = 0 ∨ v = 1) → ns < 2 ^ 32 → ns ≠ 0 → hs < 2 ^ 32 →
      headerParse ⟨fsb5Magic ++ (le4 v ++ (le4 ns ++ le4 hs)), 0⟩ =
        .error (.header .nameTableSize)) ∧
    (∀ v ns hs nt, (v = 0 ∨ v = 1) → ns < 2 ^ 32 → ns ≠ 0 → hs < 2 ^ 32 → nt < 2 ^ 32 →
      headerParse ⟨fsb5Magic ++ (le4 v ++ (le4 ns ++ (le4 hs ++ le4 nt))), 0⟩ =
        .error (.header .totalStreamSize)) ∧
    (∀ v ns hs nt ts, (v = 0 ∨ v = 1) → ns < 2 ^ 32 → ns ≠ 0 → hs < 2 ^ 32 →
      nt < 2 ^ 32 → ts < 2 ^ 32 → ts ≠ 0 →
      headerParse ⟨fsb5Magic ++ (le4 v ++ (le4 ns ++ (le4 hs ++ (le4 nt ++ le4 ts)))), 0⟩ =
        .error (.header .codec)) ∧
    (∀ v ns hs nt ts cc, (v = 0 ∨ v = 1) → ns < 2 ^ 32 → ns ≠ 0 → hs < 2 ^ 32 →
      nt < 2 ^ 32 → ts < 2 ^ 32 → ts ≠ 0 → 1 ≤ cc → cc ≤ 17 →
      headerParse
          ⟨fsb5Magic ++ (le4 v ++ (le4 ns ++ (le4 hs ++ (le4 nt ++ (le4 ts ++ le4 cc))))), 0⟩ =
        .error (.header .metadata)) := by
  refine ⟨?_, ?_, ?_, ?_, ?_, ?_, ?_, ?_⟩
  · intro data hm
    by_cases h4 : 0 + 4 ≤ data.length
    · have ht : Rd.takeLen ⟨data, 0⟩ 4 = some (data.take 4, ⟨data, 0 + 4⟩) := by
        unfold Rd.takeLen
        rw [if_pos h4]
        simp
      simp only [headerParse, ht]
      rw [if_pos hm]
    · have ht : Rd.takeLen ⟨data, 0⟩ 4 = none := by
        unfold Rd.takeLen
        rw [if_neg h4]
      simp only [headerParse, ht]
  · have ht : Rd.takeLen ⟨[], 0⟩ 4 = none := by unfold Rd.takeLen; simp
    simp only [headerParse, ht]
  · intro v hv
    have hmg : (fsb5Magic = [70, 83, 66, 53]) = True := by simp [fsb5Magic]
    have h0 := takeLen4_magic (le4 v)
    have h1 : Rd.leU32 ⟨fsb5Magic ++ le4 v, 4⟩ = some (v, ⟨fsb5Magic ++ le4 v, 4 + 4⟩) :=
      leU32_concat fsb5Magic [] v (by rcases hv with rfl | rfl <;> norm_num) _
        (by simp) (by simp [fsb5Magic])
    have h2 : Rd.leU32 ⟨fsb5Magic ++ le4 v, 8⟩ = none :=
      leU32_short _ (by simp [fsb5Magic, length_le4])
    rcases hv with rfl | rfl <;>
      simp [headerParse, h0, h1, h2, versionFromCode, hmg]
  · intro v ns hv hns32 hns
    have hmg : (fsb5Magic = [70, 83, 66, 53]) = True := by simp [fsb5Magic]
    have h0 := takeLen4_magic (le4 v ++ le4 ns)
    have h1 : Rd.leU32 ⟨fsb5Magic ++ (le4 v ++ le4 ns), 4⟩ =
        some (v, ⟨fsb5Magic ++ (le4 v ++ le4 ns), 4 + 4⟩) :=
      leU32_concat fsb5Magic (le4 ns) v (by rcases hv with rfl | rfl <;> norm_num) _
        (by simp [List.append_assoc]) (by simp [fsb5Magic])
    have h2 : Rd.leU32 ⟨fsb5Magic ++ (le4 v ++ le4 ns), 8⟩ =
        some (ns, ⟨fsb5Magic ++ (le4 v ++ le4 ns), 8 + 4⟩) := by
      have := leU32_concat (fsb5Magic ++ le4 v) [] ns hns32
        ⟨fsb5Magic ++ (le4 v ++ le4 ns), 8⟩ (by simp [List.append_assoc])
        (by simp [fsb5Magic, length_le4])
      simpa using this
    have h3 : Rd.leU32 ⟨fsb5Magic ++ (le4 v ++ le4 ns), 12⟩ = none :=
      leU32_short _ (by simp [fsb5Magic, length_le4])
    have happ : (fsb5Magic ++ le4 v) ++ le4 ns = fsb5Magic ++ (le4 v ++ le4 ns) := rfl
    rcases hv with rfl | rfl <;>
      simp [headerParse, h0, h1, h2, h3, versionFromCode, hns, hmg]
  · intro v ns hs hv hns32 hns hhs32
    have hmg : (fsb5Magic = [70, 83, 66, 53]) = True := by simp [fsb5Magic]
    have h0 := takeLen4_magic (le4 v ++ (le4 ns ++ le4 hs))
    have hd : fsb5Magic ++ (le4 v ++ (le4 ns ++ le4 hs)) =
        fsb5Magic ++ (le4 v ++ le4 ns ++ le4 hs) := by simp [List.append_assoc]
    have h1 : Rd.leU32 ⟨fsb5Magic ++ (le4 v ++ (le4 ns ++ le4 hs)), 4⟩ =
        some (v, ⟨fsb5Magic ++ (le4 v ++ (le4 ns ++ le4 hs)), 4 + 4⟩) :=
      leU32_concat fsb5Magic (le4 ns ++ le4 hs) v
        (by rcases hv with rfl | rfl <;> norm_num) _
        (by simp [List.append_assoc]) (by simp [fsb5Magic])
    have h2 : Rd.leU32 ⟨fsb5Magic ++ (le4 v ++ (le4 ns ++ le4 hs)), 8⟩ =
        some (ns, ⟨fsb5Magic ++ (le4 v ++ (le4 ns ++ le4 hs)), 8 + 4⟩) := by
      have := leU32_concat (fsb5Magic ++ le4 v) (le4 hs) ns hns32
        ⟨fsb5Magic ++ (le4 v ++ (le4 ns ++ le4 hs)), 8⟩ (by simp [List.append_assoc])
        (by simp [fsb5Magic, length_le4])
      simpa using this
    have h3 : Rd.leU32 ⟨fsb5Magic ++ (le4 v ++ (le4 ns ++ le4 hs)), 12⟩ =
        some (hs, ⟨fsb5Magic ++ (le4 v ++ (le4 ns ++ le4 hs)), 12 + 4⟩) := by
      have := leU32_concat (fsb5Magic ++ (le4 v ++ le4 ns)) [] hs hhs32
        ⟨fsb5Magic ++ (le4 v ++ (le4 ns ++ le4 hs)), 12⟩ (by simp [List.append_assoc])
        (by simp [fsb5Magic, length_le4])
      simpa using this
    have h4 : Rd.leU32 ⟨fsb5Magic ++ (le4 v ++ (le4 ns ++ le4 hs)), 16⟩ = none :=
      leU32_short _ (by simp [fsb5Magic, length_le4])
    rcases hv with rfl | rfl <;>
      simp [headerParse, h0, h1, h2, h3, h4, versionFromCode, hns, hmg]
  · intro v ns hs nt hv hns32 hns hhs32 hnt32
    have hmg : (fsb5Magic = [70, 83, 66, 53]) = True := by simp [fsb5Magic]
    have h0 := takeLen4_magic (le4 v ++ (le4 ns ++ (le4 hs ++ le4 nt)))
    have h1 : Rd.leU32 ⟨fsb5Magic ++ (le4 v ++ (le4 ns ++ (le4 hs ++ le4 nt))), 4⟩ =
        some (v, ⟨fsb5Magic ++ (le4 v ++ (le4 ns ++ (le4 hs ++ le4 nt))), 4 + 4⟩) :=
      leU32_concat fsb5Magic (le4 ns ++ le4 hs ++ le4 nt) v
        (by rcases hv with rfl | rfl <;> norm_num) _
        (by simp [List.append_assoc]) (by simp [fsb5Magic])
    have h2 : Rd.leU32 ⟨fsb5Magic ++ (le4 v ++ (le4 ns ++ (le4 hs ++ le4 nt))), 8⟩ =
        some (ns, ⟨fsb5Magic ++ (le4 v ++ (le4 ns ++ (le4 hs ++ le4 nt))), 8 + 4⟩) := by
      have := leU32_concat (fsb5Magic ++ le4 v) (le4 hs ++ le4 nt) ns hns32
        ⟨fsb5Magic ++ (le4 v ++ (le4 ns ++ (le4 hs ++ le4 nt))), 8⟩
        (by simp [List.append_assoc]) (by simp [fsb5Magic, length_le4])
      simpa using this
    have h3 : Rd.leU32 ⟨fsb5Magic ++ (le4 v ++ (le4 ns ++ (le4 hs ++ le4 nt))), 12⟩ =
        some (hs, ⟨fsb5Magic ++ (le4 v ++ (le4 ns ++ (le4 hs ++ le4 nt))), 12 + 4⟩) := by
      have := leU32_concat (fsb5Magic ++ (le4 v ++ le4 ns)) (le4 nt) hs hhs32
        ⟨fsb5Magic ++ (le4 v ++ (le4 ns ++ (le4 hs ++ le4 nt))), 12⟩
        (by simp [List.append_assoc]) (by simp [fsb5Magic, length_le4])
      simpa using this
    have h4 : Rd.leU32 ⟨fsb5Magic ++ (le4 v ++ (le4 ns ++ (le4 hs ++ le4 nt))), 16⟩ =
        some (nt, ⟨fsb5Magic ++ (le4 v ++ (le4 ns ++ (le4 hs ++ le4 nt))), 16 + 4⟩) := by
      have := leU32_concat (fsb5Magic ++ (le4 v ++ (le4 ns ++ le4 hs))) [] nt hnt32
        ⟨fsb5Magic ++ (le4 v ++ (le4 ns ++ (le4 hs ++ le4 nt))), 16⟩
        (by simp [List.append_assoc]) (by simp [fsb5Magic, length_le4])
      simpa using this
    have h5 : Rd.leU32 ⟨fsb5Magic ++ (le4 v ++ (le4 ns ++ (le4 hs ++ le4 nt))), 20⟩ = none :=
      leU32_short _ (by simp [fsb5Magic, length_le4])
    rcases hv with rfl | rfl <;>
      simp [headerParse, h0, h1, h2, h3, h4, h5, versionFromCode, hns, hmg]
  · intro v ns hs nt ts hv hns32 hns hhs32 hnt32 hts32 hts
    have hmg : (fsb5Magic = [70, 83, 66, 53]) = True := by simp [fsb5Magic]
    have h0 := takeLen4_magic (le4 v ++ (le4 ns ++ (le4 hs ++ (le4 nt ++ le4 ts))))
    have h1 : Rd.leU32 ⟨fsb5Magic ++ (le4 v ++ (le4 ns ++ (le4 hs ++ (le4 nt ++ le4 ts)))), 4⟩ =
        some (v, ⟨fsb5Magic ++ (le4 v ++ (le4 ns ++ (le4 hs ++ (le4 nt ++ le4 ts)))), 4 + 4⟩) :=
      leU32_concat fsb5Magic (le4 ns ++ le4 hs ++ le4 nt ++ le4 ts) v
        (by rcases hv with rfl | rfl <;> norm_num) _
        (by simp [List.append_assoc]) (by simp [fsb5Magic])
    have h2 : Rd.leU32 ⟨fsb5Magic ++ (le4 v ++ (le4 ns ++ (le4 hs ++ (le4 nt ++ le4 ts)))), 8⟩ =
        some (ns, ⟨fsb5Magic ++ (le4 v ++ (le4 ns ++ (le4 hs ++ (le4 nt ++ le4 ts)))), 8 + 4⟩) := by
      have := leU32_concat (fsb5Magic ++ le4 v) (le4 hs ++ le4 nt ++ le4 ts) ns hns32
        ⟨fsb5Magic ++ (le4 v ++ (le4 ns ++ (le4 hs ++ (le4 nt ++ le4 ts)))), 8⟩
        (by simp [List.append_assoc]) (by simp [fsb5Magic, length_le4])
      simpa using this
    have h3 : Rd.leU32 ⟨fsb5Magic ++ (le4 v ++ (le4 ns ++ (le4 hs ++ (le4 nt ++ le4 ts)))), 12⟩ =
        some (hs, ⟨fsb5Magic ++ (le4 v ++ (le4 ns ++ (le4 hs ++ (le4 nt ++ le4 ts)))), 12 + 4⟩) := by
      have := leU32_concat (fsb5Magic ++ (le4 v ++ le4 ns)) (le4 nt ++ le4 ts) hs hhs32
        ⟨fsb5Magic ++ (le4 v ++ (le4 ns ++ (le4 hs ++ (le4 nt ++ le4 ts)))), 12⟩
        (by simp [List.append_assoc]) (by simp [fsb5Magic, length_le4])
      simpa using this
    have h4 : Rd.leU32 ⟨fsb5Magic ++ (le4 v ++ (le4 ns ++ (le4 hs ++ (le4 nt ++ le4 ts)))), 16⟩ =
        some (nt, ⟨fsb5Magic ++ (le4 v ++ (le4 ns ++ (le4 hs ++ (le4 nt ++ le4 ts)))), 16 + 4⟩) := by
      have := leU32_concat (fsb5Magic ++ (le4 v ++ (le4 ns ++ le4 hs))) (le4 ts) nt hnt32
        ⟨fsb5Magic ++ (le4 v ++ (le4 ns ++ (le4 hs ++ (le4 nt ++ le4 ts)))), 16⟩
        (by simp [List.append_assoc]) (by simp [fsb5Magic, length_le4])
      simpa using this
    have h5 : Rd.leU32 ⟨fsb5Magic ++ (le4 v ++ (le4 ns ++ (le4 hs ++ (le4 nt ++ le4 ts)))), 20⟩ =
        some (ts, ⟨fsb5Magic ++ (le4 v ++ (le4 ns ++ (le4 hs ++ (le4 nt ++ le4 ts)))), 20 + 4⟩) := by
      have := leU32_concat (fsb5Magic ++ (le4 v ++ (le4 ns ++ (le4 hs ++ le4 nt)))) [] ts hts32
        ⟨fsb5Magic ++ (le4 v ++ (le4 ns ++ (le4 hs ++ (le4 nt ++ le4 ts)))), 20⟩
        (by simp [List.append_assoc]) (by simp [fsb5Magic, length_le4])
      simpa using this
    have h6 : Rd.leU32 ⟨fsb5Magic ++ (le4 v ++ (le4 ns ++ (le4 hs ++ (le4 nt ++ le4 ts)))), 24⟩ =
        none :=
      leU32_short _ (by simp [fsb5Magic, length_le4])
    rcases hv with rfl | rfl <;>
      simp [headerParse, h0, h1, h2, h3, h4, h5, h6, versionFromCode, hns, hts, hmg]
  · intro v ns hs nt ts cc hv hns32 hns hhs32 hnt32 hts32 hts hcc1 hcc17
    have hmg : (fsb5Magic = [70, 83, 66, 53]) = True := by simp [fsb5Magic]
    have h0 := takeLen4_magic (le4 v ++ (le4 ns ++ (le4 hs ++ (le4 nt ++ (le4 ts ++ le4 cc)))))
    have h1 : Rd.leU32
        ⟨fsb5Magic ++ (le4 v ++ (le4 ns ++ (le4 hs ++ (le4 nt ++ (le4 ts ++ le4 cc))))), 4⟩ =
        some (v,
          ⟨fsb5Magic ++ (le4 v ++ (le4 ns ++ (le4 hs ++ (le4 nt ++ (le4 ts ++ le4 cc))))), 4 + 4⟩) :=
      leU32_concat fsb5Magic (le4 ns ++ le4 hs ++ le4 nt ++ le4 ts ++ le4 cc) v
        (by rcases hv with rfl | rfl <;> norm_num) _
        (by simp [List.append_assoc]) (by simp [fsb5Magic])
    have h2 : Rd.leU32
        ⟨fsb5Magic ++ (le4 v ++ (le4 ns ++ (le4 hs ++ (le4 nt ++ (le4 ts ++ le4 cc))))), 8⟩ =
        some (ns,
          ⟨fsb5Magic ++ (le4 v ++ (le4 ns ++ (le4 hs ++ (le4 nt ++ (le4 ts ++ le4 cc))))), 8 + 4⟩) := by
      have := leU32_concat (fsb5Magic ++ le4 v) (le4 hs ++ le4 nt ++ le4 ts ++ le4 cc) ns
        hns32 ⟨fsb5Magic ++ (le4 v ++ (le4 ns ++ (le4 hs ++ (le4 nt ++ (le4 ts ++ le4 cc))))), 8⟩
        (by simp [List.append_assoc]) (by simp [fsb5Magic, length_le4])
      simpa using this
    have h3 : Rd.leU32
        ⟨fsb5Magic ++ (le4 v ++ (le4 ns ++ (le4 hs ++ (le4 nt ++ (le4 ts ++ le4 cc))))), 12⟩ =
        some (hs,
          ⟨fsb5Magic ++ (le4 v ++ (le4 ns ++ (le4 hs ++ (le4 nt ++ (le4 ts ++ le4 cc))))), 12 + 4⟩) := by
      have := leU32_concat (fsb5Magic ++ (le4 v ++ le4 ns)) (le4 nt ++ le4 ts ++ le4 cc) hs
        hhs32 ⟨fsb5Magic ++ (le4 v ++ (le4 ns ++ (le4 hs ++ (le4 nt ++ (le4 ts ++ le4 cc))))), 12⟩
        (by simp [List.append_assoc]) (by simp [fsb5Magic, length_le4])
      simpa using this
    have h4 : Rd.leU32
        ⟨fsb5Magic ++ (le4 v ++ (le4 ns ++ (le4 hs ++ (le4 nt ++ (le4 ts ++ le4 cc))))), 16⟩ =
        some (nt,
          ⟨fsb5Magic ++ (le4 v ++ (le4 ns ++ (le4 hs ++ (le4 nt ++ (le4 ts ++ le4 cc))))), 16 + 4⟩) := by
      have := leU32_concat (fsb5Magic ++ (le4 v ++ (le4 ns ++ le4 hs))) (le4 ts ++ le4 cc) nt
        hnt32 ⟨fsb5Magic ++ (le4 v ++ (le4 ns ++ (le4 hs ++ (le4 nt ++ (le4 ts ++ le4 cc))))), 16⟩
        (by simp [List.append_assoc]) (by simp [fsb5Magic, length_le4])
      simpa using this
    have h5 : Rd.leU32
        ⟨fsb5Magic ++ (le4 v ++ (le4 ns ++ (le4 hs ++ (le4 nt ++ (le4 ts ++ le4 cc))))), 20⟩ =
        some (ts,
          ⟨fsb5Magic ++ (le4 v ++ (le4 ns ++ (le4 hs ++ (le4 nt ++ (le4 ts ++ le4 cc))))), 20 + 4⟩) := by
      have := leU32_concat (fsb5Magic ++ (le4 v ++ (le4 ns ++ (le4 hs ++ le4 nt)))) (le4 cc) ts
        hts32 ⟨fsb5Magic ++ (le4 v ++ (le4 ns ++ (le4 hs ++ (le4 nt ++ (le4 ts ++ le4 cc))))), 20⟩
        (by simp [List.append_assoc]) (by simp [fsb5Magic, length_le4])
      simpa using this
    have h6 : Rd.leU32
        ⟨fsb5Magic ++ (le4 v ++ (le4 ns ++ (le4 hs ++ (le4 nt ++ (le4 ts ++ le4 cc))))), 24⟩ =
        some (cc,
          ⟨fsb5Magic ++ (le4 v ++ (le4 ns ++ (le4 hs ++ (le4 nt ++ (le4 ts ++ le4 cc))))), 24 + 4⟩) := by
      have := leU32_concat (fsb5Magic ++ (le4 v ++ (le4 ns ++ (le4 hs ++ (le4 nt ++ le4 ts))))) []
        cc (by omega)
        ⟨fsb5Magic ++ (le4 v ++ (le4 ns ++ (le4 hs ++ (le4 nt ++ (le4 ts ++ le4 cc))))), 24⟩
        (by simp [List.append_assoc]) (by simp [fsb5Magic, length_le4])
      simpa using this
    have hlen :
        (fsb5Magic ++ (le4 v ++ (le4 ns ++ (le4 hs ++ (le4 nt ++ (le4 ts ++ le4 cc)))))).length = 28 := by
      simp [fsb5Magic, length_le4]
    have hadv : ∀ b : Nat, 28 < b →
        Rd.advanceTo
          ⟨fsb5Magic ++ (le4 v ++ (le4 ns ++ (le4 hs ++ (le4 nt ++ (le4 ts ++ le4 cc))))), 28⟩ b =
        .error ⟨fsb5Magic ++ (le4 v ++ (le4 ns ++ (le4 hs ++ (le4 nt ++ (le4 ts ++ le4 cc))))), 28⟩ := by
      intro b hb
      have hpast := advanceTo_past
        (fsb5Magic ++ (le4 v ++ (le4 ns ++ (le4 hs ++ (le4 nt ++ (le4 ts ++ le4 cc)))))) 28 b
        (by omega) (by rw [hlen]; omega)
      rw [hpast, hlen]
    have hcodec : ∃ c : Codec, codecFromCode cc = .ok c := by
      interval_cases cc <;> exact ⟨_, rfl⟩
    obtain ⟨c, hc⟩ := hcodec
    have hadv60 := hadv 60 (by norm_num)
    have hadv64 := hadv 64 (by norm_num)
    rcases hv with rfl | rfl <;>
      simp [headerParse, h0, h1, h2, h3, h4, h5, h6, hadv60, hadv64, versionFromCode, hns,
        hts, hc, hmg]

theorem c8_truncation_errors_witness :
    headerParse ⟨fsb5Magic ++ le4 1, 0⟩ = .error (.header .streamCount) ∧
    headerParse
        ⟨fsb5Magic ++ (le4 1 ++ (le4 1 ++ (le4 0 ++ (le4 0 ++ (le4 1 ++ le4 15))))), 0⟩ =
      .error (.header .metadata) :=
  ⟨c8_truncation_errors.2.2.1 1 (Or.inr rfl),
   c8_truncation_errors.2.2.2.2.2.2.2 1 1 0 0 1 15 (Or.inr rfl) (by norm_num)
     (by norm_num) (by norm_num) (by norm_num) (by norm_num) (by norm_num) (by norm_num)
     (by norm_num)⟩

lemma rd_eq (a : Rd) (d : List Nat) (p : Nat) (hd : a.data = d) (hp : a.pos = p) :
    a = ⟨d, p⟩ := by
  obtain ⟨ad, ap⟩ := a
  have h1 : ad = d := hd
  have h2 : ap = p := hp
  rw [h1, h2]

lemma leU32_spec (r : Rd) (v : Nat) (r' : Rd) (h : r.leU32 = some (v, r')) :
    r' = ⟨r.data, r.pos + 4⟩ ∧ r.pos + 4 ≤ r.data.length ∧
    v = bytesToNatLE ((r.data.drop r.pos).take 4) := by
  unfold Rd.leU32 at h
  cases htl : r.takeLen 4 with
  | none => simp only [htl] at h; cases h
  | some p =>
    obtain ⟨bs, r1⟩ := p
    simp only [htl] at h
    obtain ⟨hv, hr⟩ : bytesToNatLE bs = v ∧ r1 = r' := by simpa using h
    obtain ⟨hd, hp, hle, hbs⟩ := takeLen_spec _ _ _ _ htl
    subst hv hr
    subst hbs
    exact ⟨rd_eq _ _ _ hd hp, hle, rfl⟩

lemma readNameOffsets_spec : ∀ (n idx : Nat) (r : Rd) (offs : List Nat) (r' : Rd),
    readNameOffsets n idx r = .ok (offs, r') →
    offs.length = n ∧ r' = ⟨r.data, r.pos + 4 * n⟩ ∧
    ∀ k < n, offs.getD k 0 = bytesToNatLE ((r.data.drop (r.pos + 4 * k)).take 4) := by
  intro n
  induction n with
  | zero =>
    intro idx r offs r' h
    cases h
    exact ⟨rfl, by simp, fun k hk => absurd hk (by omega)⟩
  | succ n ih =>
    intro idx r offs r' h
    unfold readNameOffsets at h
    cases hu : r.leU32 with
    | none => simp only [hu] at h; cases h
    | some p =>
      obtain ⟨v, r1⟩ := p
      simp only [hu] at h
      cases hrec : readNameOffsets n (idx + 1) r1 with
      | error e => simp only [hrec] at h; cases h
      | ok q =>
        obtain ⟨vs, r2⟩ := q
        simp only [hrec] at h
        obtain ⟨ho, hr⟩ : v :: vs = offs ∧ r2 = r' := by simpa using h
        subst ho hr
        obtain ⟨hr1, hle, hv⟩ := leU32_spec _ _ _ hu
        subst hr1
        obtain ⟨hlen, hr2, hvals⟩ := ih (idx + 1) _ vs _ hrec
        have hr2e : r2 = ⟨r.data, r.pos + 4 + 4 * n⟩ := hr2
        have hvalse : ∀ k < n,
            vs.getD k 0 = bytesToNatLE ((r.data.drop (r.pos + 4 + 4 * k)).take 4) := hvals
        refine ⟨by simp [hlen], by rw [hr2e]; congr 1; ring, ?_⟩
        intro k hk
        match k with
        | 0 => simpa using hv
        | k + 1 =>
          have hx := hvalse k (by omega)
          have ha : r.pos + 4 + 4 * k = r.pos + 4 * (k + 1) := by ring
          rw [ha] at hx
          simpa using hx

lemma length_setStreamName : ∀ (l : List StreamInfo) (i : Nat) (nm : List Nat),
    (setStreamName l i nm).length = l.length
  | [], _, _ => rfl
  | _ :: tl, 0, _ => rfl
  | _ :: tl, n + 1, nm => by simp [setStreamName, length_setStreamName tl n nm]

lemma getD_setStreamName_self : ∀ (l : List StreamInfo) (i : Nat) (nm : List Nat)
    (d : StreamInfo), i < l.length →
    (setStreamName l i nm).getD i d = { l.getD i d with name := some nm }
  | [], i, _, _, h => absurd h (by simp)
  | x :: tl, 0, nm, d, _ => rfl
  | x :: tl, n + 1, nm, d, h => by
    simp only [setStreamName, List.getD_cons_succ]
    exact getD_setStreamName_self tl n nm d (by simpa using h)

lemma getD_setStreamName_ne : ∀ (l : List StreamInfo) (i j : Nat) (nm : List Nat)
    (d : StreamInfo), j ≠ i →
    (setStreamName l i nm).getD j d = l.getD j d
  | [], _, _, _, _, _ => rfl
  | x :: tl, 0, 0, nm, d, h => absurd rfl h
  | x :: tl, 0, j + 1, nm, d, _ => rfl
  | x :: tl, i + 1, 0, nm, d, _ => rfl
  | x :: tl, i + 1, j + 1, nm, d, h => by
    simp only [setStreamName, List.getD_cons_succ]
    exact getD_setStreamName_ne tl i j nm d (by omega)

lemma windowLens_cons (a b : Nat) (rest : List Nat) :
    windowLens (a :: b :: rest) = sub32 b a :: windowLens (b :: rest) := rfl

lemma readStreamNamesAux_cons (r : Rd) (a b : Nat) (rest : List Nat)
    (infos : List StreamInfo) (index : Nat) :
    readStreamNamesAux r (a :: b :: rest) infos index =
      match r.takeLen (sub32 b a) with
      | none => .error (.name index .name)
      | some (bytes, r1) =>
        match cstrFromBytesWithNul bytes with
        | none => .error (.name index .cstr)
        | some body =>
          if isValidUtf8 body then
            readStreamNamesAux r1 (b :: rest) (setStreamName infos index body) (index + 1)
          else .error (.name index .utf8) := rfl

lemma readStreamNamesAux_ok_spec : ∀ (offs : List Nat) (r : Rd) (infos : List StreamInfo)
    (index : Nat) (infos' : List StreamInfo) (r' : Rd),
    readStreamNamesAux r offs infos index = .ok (infos', r') →
    infos'.length = infos.length ∧ r'.data = r.data ∧
    (∀ j, (∀ k, k + 1 < offs.length → index + k ≠ j) →
      infos'.getD j defaultInfo = infos.getD j defaultInfo) ∧
    ∀ k, k + 1 < offs.length →
      ∃ body,
        cstrFromBytesWithNul
          ((r.data.drop (r.pos + ((windowLens offs).take k).sum)).take
            ((windowLens offs).getD k 0)) = some body ∧
        isValidUtf8 body = true ∧
        (index + k < infos.length →
          infos'.getD (index + k) defaultInfo =
            { infos.getD (index + k) defaultInfo with name := some body }) := by
  intro offs
  induction offs with
  | nil =>
    intro r infos index infos' r' h
    cases h
    exact ⟨rfl, rfl, fun j _ => rfl, fun k hk => absurd hk (by simp)⟩
  | cons a tl ih =>
    intro r infos index infos' r' h
    match tl, ih with
    | [], _ =>
      cases h
      exact ⟨rfl, rfl, fun j _ => rfl, fun k hk => absurd hk (by simp)⟩
    | b :: rest, ih =>
      rw [readStreamNamesAux_cons] at h
      cases htl : r.takeLen (sub32 b a) with
      | none => simp only [htl] at h; cases h
      | some p =>
        obtain ⟨bytes, r1⟩ := p
        simp only [htl] at h
        cases hcs : cstrFromBytesWithNul bytes with
        | none => simp only [hcs] at h; cases h
        | some body =>
          simp only [hcs] at h
          by_cases hu8 : isValidUtf8 body
          · rw [if_pos hu8] at h
            obtain ⟨hd, hp, hle, hbs⟩ := takeLen_spec _ _ _ _ htl
            subst hbs
            obtain ⟨ihlen, ihd, ihunch, ihspan⟩ := ih r1 (setStreamName infos index body)
              (index + 1) infos' r' h
            have hlen' : infos'.length = infos.length := by
              rw [ihlen, length_setStreamName]
            have hdata : r'.data = r.data := by rw [ihd, hd]
            refine ⟨hlen', hdata, ?_, ?_⟩
            · intro j hj
              have h1 : infos'.getD j defaultInfo =
                  (setStreamName infos index body).getD j defaultInfo := by
                refine ihunch j ?_
                intro k hk
                have := hj (k + 1) (by simpa using hk)
                omega
              have h2 : (setStreamName infos index body).getD j defaultInfo =
                  infos.getD j defaultInfo := by
                refine getD_setStreamName_ne _ _ _ _ _ ?_
                have := hj 0 (by simp)
                omega
              rw [h1, h2]
            · intro k hk
              match k with
              | 0 =>
                refine ⟨body, ?_, hu8, ?_⟩
                · rw [windowLens_cons]
                  simpa using hcs
                · intro hidx
                  have h1 : infos'.getD (index + 0) defaultInfo =
                      (setStreamName infos index body).getD (index + 0) defaultInfo := by
                    refine ihunch (index + 0) ?_
                    intro k' _
                    omega
                  rw [h1]
                  simpa using getD_setStreamName_self infos index body defaultInfo
                    (by simpa using hidx)
              | k + 1 =>
                obtain ⟨body', hcs', hu8', hassign'⟩ := ihspan k (by simpa using hk)
                refine ⟨body', ?_, hu8', ?_⟩
                · rw [windowLens_cons]
                  simp only [List.take_succ_cons, List.sum_cons, List.getD_cons_succ]
                  rw [hd, hp] at hcs'
                  have ha : r.pos + sub32 b a + ((windowLens (b :: rest)).take k).sum =
                      r.pos + (sub32 b a + ((windowLens (b :: rest)).take k).sum) := by ring
                  rw [ha] at hcs'
                  exact hcs'
                · intro hidx
                  have haidx : index + 1 + k = index + (k + 1) := by ring
                  have h2 := hassign' (by rw [haidx, length_setStreamName]; simpa using hidx)
                  rw [haidx] at h2
                  rw [h2, getD_setStreamName_ne _ _ _ _ _ (by omega)]
          · rw [if_neg hu8] at h
            cases h

lemma assignSizesGo_names (hs : List StreamHeader) : ∀ (offs : List Nat) (idx : Nat)
    (infos : List StreamInfo), assignSizesGo offs hs idx = .ok infos →
    ∀ x ∈ infos, x.name = none := by
  induction hs with
  | nil =>
    intro offs idx infos h
    rcases offs with _ | ⟨a, _ | ⟨b, rest⟩⟩ <;> (cases h; simp)
  | cons hd tl ih =>
    intro offs idx infos h
    rcases offs with _ | ⟨a, _ | ⟨b, rest⟩⟩
    · cases h; simp
    · cases h; simp
    · rw [assignSizesGo_cons] at h
      by_cases hz : sub32 b a = 0
      · rw [if_pos hz] at h; cases h
      · rw [if_neg hz] at h
        cases hrec : assignSizesGo (b :: rest) tl (idx + 1) with
        | error e => simp only [hrec] at h; cases h
        | ok tlinfos =>
          simp only [hrec] at h
          have hinf : hd.withStreamSize (sub32 b a) :: tlinfos = infos := by simpa using h
          subst hinf
          intro x hx
          rcases List.mem_cons.mp hx with rfl | hx
          · rfl
          · exact ih (b :: rest) (idx + 1) tlinfos hrec x hx

lemma getLast?_decomp (l : List Nat) (a : Nat) (h : l.getLast? = some a) :
    l = l.dropLast ++ [a] := by
  cases l with
  | nil => cases h
  | cons x xs =>
    have hne : x :: xs ≠ [] := by simp
    rw [List.getLast?_eq_getLast _ hne] at h
    have ha := Option.some.inj h
    rw [← ha]
    exact (List.dropLast_append_getLast hne).symm

/-- C9: with a nonzero name-table size the parser reads `num_streams`
little-endian 32-bit offsets plus the table size as terminal sentinel, and
for each adjacent pair reads exactly (next − current) bytes, requires a
NUL-terminated (else index-scoped `Cstr`) valid-UTF-8 (else `Utf8`) string,
and assigns the decoded name to the stream at that position in declaration
order; with a zero name-table size the phase is skipped, every stream's name
stays absent (as produced by the stream-size phase), and no error is
raised. -/
theorem c9_name_table :
    (∀ (ns : Nat) (r : Rd) (infos : List StreamInfo),
      nameTablePhase 0 ns r infos = .ok (infos, r)) ∧
    (∀ (hs : List StreamHeader) (total : Nat) (infos : List StreamInfo),
      assignStreamSizes hs total = .ok infos → ∀ x ∈ infos, x.name = none) ∧
    (∀ (nts ns : Nat) (r : Rd) (infos : List StreamInfo), nts ≠ 0 →
      nameTablePhase nts ns r infos =
        match readNameOffsets ns 0 r with
        | .error e => .error e
        | .ok (offs, r1) => readStreamNamesAux r1 (offs ++ [nts]) infos 0) ∧
    (∀ (n idx : Nat) (r : Rd) (offs : List Nat) (r' : Rd),
      readNameOffsets n idx r = .ok (offs, r') →
      offs.length = n ∧ r' = ⟨r.data, r.pos + 4 * n⟩ ∧
      ∀ k < n, offs.getD k 0 = bytesToNatLE ((r.data.drop (r.pos + 4 * k)).take 4)) ∧
    (∀ (offs : List Nat) (r : Rd) (infos : List StreamInfo) (index : Nat)
       (infos' : List StreamInfo) (r' : Rd),
      readStreamNamesAux r offs infos index = .ok (infos', r') →
      infos'.length = infos.length ∧ r'.data = r.data ∧
      (∀ j, (∀ k, k + 1 < offs.length → index + k ≠ j) →
        infos'.getD j defaultInfo = infos.getD j defaultInfo) ∧
      ∀ k, k + 1 < offs.length →
        ∃ body,
          cstrFromBytesWithNul
            ((r.data.drop (r.pos + ((windowLens offs).take k).sum)).take
              ((windowLens offs).getD k 0)) = some body ∧
          isValidUtf8 body = true ∧
          (index + k < infos.length →
            infos'.getD (index + k) defaultInfo =
              { infos.getD (index + k) defaultInfo with name := some body })) ∧
    (∀ (r : Rd) (a b : Nat) (rest : List Nat) (infos : List StreamInfo) (index : Nat),
      r.takeLen (sub32 b a) = none →
      readStreamNamesAux r (a :: b :: rest) infos index = .error (.name index .name)) ∧
    (∀ (r : Rd) (a b : Nat) (rest : List Nat) (infos : List StreamInfo) (index : Nat)
       (bytes : List Nat) (r1 : Rd),
      r.takeLen (sub32 b a) = some (bytes, r1) → cstrFromBytesWithNul bytes = none →
      readStreamNamesAux r (a :: b :: rest) infos index = .error (.name index .cstr)) ∧
    (∀ (r : Rd) (a b : Nat) (rest : List Nat) (infos : List StreamInfo) (index : Nat)
       (bytes body : List Nat) (r1 : Rd),
      r.takeLen (sub32 b a) = some (bytes, r1) → cstrFromBytesWithNul bytes = some body →
      isValidUtf8 body = false →
      readStreamNamesAux r (a :: b :: rest) infos index = .error (.name index .utf8)) := by
  refine ⟨fun ns r infos => rfl, ?_, ?_, readNameOffsets_spec, readStreamNamesAux_ok_spec,
    ?_, ?_, ?_⟩
  · intro hs total infos h
    exact assignSizesGo_names hs _ 0 infos h
  · intro nts ns r infos h
    unfold nameTablePhase
    rw [if_neg h]
  · intro r a b rest infos index h
    rw [readStreamNamesAux_cons]
    simp only [h]
  · intro r a b rest infos index bytes r1 h1 h2
    rw [readStreamNamesAux_cons]
    simp only [h1, h2]
  · intro r a b rest infos index bytes body r1 h1 h2 h3
    rw [readStreamNamesAux_cons]
    simp only [h1, h2, h3]
    rw [if_neg (by simp [h3])]

theorem c9_name_table_witness :
    ([{ defaultInfo with name := some [65, 66] },
      { defaultInfo with name := some [67] }] : List StreamInfo).length =
      ([defaultInfo, defaultInfo] : List StreamInfo).length :=
  (c9_name_table.2.2.2.2.1 [0, 3, 5] ⟨[65, 66, 0, 67, 0], 0⟩ [defaultInfo, defaultInfo] 0
    [{ defaultInfo with name := some [65, 66] }, { defaultInfo with name := some [67] }]
    ⟨[65, 66, 0, 67, 0], 5⟩ rfl).1

/-- C10: name resolution succeeds only when the span contains exactly one NUL
byte, sitting at the very end; a span whose last byte is NUL but which also
holds an earlier NUL fails with a `Cstr` error scoped to that stream index,
even though the string is NUL-terminated. -/
theorem c10_interior_nul :
    (∀ bytes body : List Nat,
      cstrFromBytesWithNul bytes = some body ↔ bytes = body ++ [0] ∧ ¬ 0 ∈ body) ∧
    (∀ (r : Rd) (a b : Nat) (rest : List Nat) (infos : List StreamInfo) (index : Nat)
       (bytes : List Nat) (r1 : Rd),
      r.takeLen (sub32 b a) = some (bytes, r1) →
      bytes.getLast? = some 0 → 0 ∈ bytes.dropLast →
      readStreamNamesAux r (a :: b :: rest) infos index = .error (.name index .cstr)) := by
  constructor
  · intro bytes body
    unfold cstrFromBytesWithNul
    split
    · rename_i hcond
      obtain ⟨hne, hlast, hnin⟩ := hcond
      constructor
      · intro h
        have hb : bytes.dropLast = body := Option.some.inj h
        subst hb
        exact ⟨getLast?_decomp bytes 0 hlast, hnin⟩
      · rintro ⟨h1, h2⟩
        subst h1
        rw [List.dropLast_concat]
    · rename_i hcond
      constructor
      · intro h; cases h
      · rintro ⟨h1, h2⟩
        exfalso
        apply hcond
        subst h1
        refine ⟨by simp, by simp, by simpa using h2⟩
  · intro r a b rest infos index bytes r1 htl hlast hmem
    rw [readStreamNamesAux_cons]
    simp only [htl]
    have hnone : cstrFromBytesWithNul bytes = none := by
      unfold cstrFromBytesWithNul
      rw [if_neg]
      rintro ⟨_, _, h3⟩
      exact h3 hmem
    simp only [hnone]

theorem c10_interior_nul_witness :
    readStreamNamesAux ⟨[65, 0, 0], 0⟩ [0, 3] [defaultInfo] 0 =
      .error (.name 0 .cstr) :=
  c10_interior_nul.2 ⟨[65, 0, 0], 0⟩ 0 3 [] [defaultInfo] 0 [65, 0, 0] ⟨[65, 0, 0], 3⟩
    (by decide) (by decide) (by decide)
